import Mathlib

/-!
Verification development for the bun:sqlite Prisma driver adapter.

The definitions below are a shallow embedding of the adapter's source:
the argument encoder `mapArg`, the row decoder `mapRow`, the declared
column type resolver `mapDeclType` / `getColumnTypes`, the error
classifier `convertDriverError`, the FIFO mutex `AsyncMutex` (as an
explicit state machine), and the transaction / dispose control flow of
`BunSqliteAdapter` (both the single-file variant and the modular
variant present in the repository).

JavaScript numbers are modelled as exact rationals: none of the
properties settled here hinges on IEEE-754 rounding, only on which
code path runs and on exact big-integer decimal round-trips (which the
source performs through arbitrary-precision `BigInt`, not through
native numbers).
-/

/-- Wire-level scalar types: the `ColumnTypeEnum` members used by the adapter. -/
inductive ColumnType where
  | int32
  | int64
  | float
  | double
  | numeric
  | text
  | bytes
  | boolean
  | date
  | time
  | dateTime
  | json
  | unknownNumber
deriving DecidableEq, Repr

/-- Declared scalar types of statement arguments (`ArgType.scalarType`). -/
inductive ScalarArgType where
  | int
  | float
  | decimal
  | bigint
  | boolean
  | datetime
  | bytes
  | string
  | json
  | unknown
deriving DecidableEq, Repr

/-- An `ArgType` as consumed by `mapArg`: only the `scalarType` field matters here. -/
structure ArgTy where
  scalarType : ScalarArgType
deriving DecidableEq, Repr

/-- Timestamp encoding modes (`PrismaBunSqliteOptions.timestampFormat`). -/
inductive TsFormat where
  | iso8601
  | unixepochMs
deriving DecidableEq, Repr

/-- Adapter runtime options (`PrismaBunSqliteOptions`); fields are optional in JS. -/
structure AdapterOptions where
  timestampFormat : Option TsFormat
  safeIntegers : Option Bool
deriving DecidableEq, Repr

/-- JavaScript runtime values as they flow through the adapter.
`num` is an exact rational standing for a JS number, `nan` is the NaN
number, `bigint` is an arbitrary-precision `BigInt`, `bytes` stands for
`Buffer`/`Uint8Array`/`ArrayBuffer` contents, `arr` is a plain JS array
of numbers, and `date` is a `Date` object (`none` = Invalid Date). -/
inductive JSVal where
  | null
  | nan
  | bool (b : Bool)
  | num (q : ℚ)
  | bigint (n : ℤ)
  | str (s : String)
  | bytes (bs : List ℕ)
  | arr (xs : List ℚ)
  | date (ms : Option ℤ)
deriving DecidableEq, Repr

/-- Whitespace as trimmed by JS `String.prototype.trim` (ASCII subset:
space, tab, line feed, vertical tab, form feed, carriage return). -/
def isWsChar (c : Char) : Bool :=
  c.toNat = 32 ∨ c.toNat = 9 ∨ c.toNat = 10 ∨ c.toNat = 11 ∨ c.toNat = 12 ∨ c.toNat = 13

/-- JS `trim` on a character list: drop whitespace at both ends. -/
def trimChars (s : List Char) : List Char :=
  ((s.dropWhile isWsChar).reverse.dropWhile isWsChar).reverse

/-- Decimal digit character for a value below ten. -/
def decDigit (d : ℕ) : Char := Char.ofNat (48 + d)

def isDigitChar (c : Char) : Bool := 48 ≤ c.toNat ∧ c.toNat ≤ 57

/-- Fuel-indexed most-significant-first decimal digit printer. -/
def natDecAux : ℕ → ℕ → List Char
  | 0, _ => []
  | fuel + 1, n =>
    if n < 10 then [decDigit n]
    else natDecAux fuel (n / 10) ++ [decDigit (n % 10)]

/-- Canonical decimal representation of a natural number (as JS prints it). -/
def natToDec (n : ℕ) : List Char := natDecAux (n + 1) n

/-- Canonical decimal string of an integer: exactly what `BigInt.prototype.toString`
produces, and the canonical notion of "decimal string denoting an integer". -/
def intToDec (n : ℤ) : String :=
  if n < 0 then ⟨'-' :: natToDec n.natAbs⟩ else ⟨natToDec n.natAbs⟩

/-- Numeric value of a most-significant-first digit list. -/
def digitsVal (l : List Char) : ℕ :=
  l.foldl (fun a c => 10 * a + (c.toNat - 48)) 0

/-- Parse a non-empty all-digit character list; `none` otherwise. -/
def parseNatDigits (l : List Char) : Option ℕ :=
  if l ≠ [] ∧ l.all isDigitChar then some (digitsVal l) else none

/-- JS `BigInt(string)`: trims whitespace, optional sign, decimal digits;
`""` is `0n`; anything else throws (`none`). Radix prefixes (`0x`/`0o`/`0b`),
which never arise for the decimal strings at stake, are not modelled. -/
def jsBigIntOfString (s : String) : Option ℤ :=
  match trimChars s.data with
  | [] => some 0
  | c :: rest =>
    if c = '-' then (parseNatDigits rest).map (fun (m : ℕ) => (-(m : ℤ) : ℤ))
    else if c = '+' then (parseNatDigits rest).map (fun (m : ℕ) => ((m : ℤ) : ℤ))
    else (parseNatDigits (c :: rest)).map (fun (m : ℕ) => ((m : ℤ) : ℤ))

theorem digitsVal_append_digit (l : List Char) (c : Char) :
    digitsVal (l ++ [c]) = 10 * digitsVal l + (c.toNat - 48) := by
  simp [digitsVal, List.foldl_append]

theorem decDigit_toNat (d : ℕ) (h : d < 10) : (decDigit d).toNat = 48 + d := by
  interval_cases d <;> rfl

theorem isDigitChar_decDigit (d : ℕ) (h : d < 10) : isDigitChar (decDigit d) = true := by
  interval_cases d <;> rfl

theorem not_ws_of_digit (c : Char) (h : isDigitChar c = true) : isWsChar c = false := by
  simp only [isDigitChar, decide_eq_true_eq] at h
  simp only [isWsChar, decide_eq_false_iff_not]
  omega

theorem dropWhile_eq_self_of_all (p : Char → Bool) (l : List Char)
    (h : ∀ c ∈ l, p c = false) : l.dropWhile p = l := by
  cases l with
  | nil => rfl
  | cons a as => simp [List.dropWhile, h a (List.mem_cons_self a as)]

theorem trimChars_eq_self (l : List Char) (h : ∀ c ∈ l, isWsChar c = false) :
    trimChars l = l := by
  unfold trimChars
  rw [dropWhile_eq_self_of_all _ _ h,
      dropWhile_eq_self_of_all _ _ (fun c hc => h c (List.mem_reverse.mp hc)),
      List.reverse_reverse]

theorem natDecAux_spec (fuel : ℕ) : ∀ n, n < fuel →
    natDecAux fuel n ≠ [] ∧ (natDecAux fuel n).all isDigitChar = true ∧
    digitsVal (natDecAux fuel n) = n := by
  induction fuel with
  | zero => intro n h; omega
  | succ f ih =>
    intro n h
    by_cases h10 : n < 10
    · refine ⟨by simp [natDecAux, h10], ?_, ?_⟩
      · simp [natDecAux, h10, isDigitChar_decDigit n h10]
      · simp [natDecAux, h10, digitsVal, decDigit_toNat n h10]
    · have hpos : 0 < n := by omega
      have hdiv : n / 10 < n := Nat.div_lt_self hpos (by norm_num)
      have hn : n / 10 < f := by omega
      obtain ⟨hne, hdig, hval⟩ := ih (n / 10) hn
      have hm : n % 10 < 10 := Nat.mod_lt _ (by norm_num)
      refine ⟨by simp [natDecAux, h10], ?_, ?_⟩
      · simp [natDecAux, h10, List.all_append, hdig, isDigitChar_decDigit _ hm]
      · rw [natDecAux, if_neg h10, digitsVal_append_digit, hval, decDigit_toNat _ hm]
        omega

theorem natToDec_ne_nil (n : ℕ) : natToDec n ≠ [] :=
  (natDecAux_spec (n + 1) n (Nat.lt_succ_self n)).1

theorem natToDec_all_digits (n : ℕ) : (natToDec n).all isDigitChar = true :=
  (natDecAux_spec (n + 1) n (Nat.lt_succ_self n)).2.1

theorem digitsVal_natToDec (n : ℕ) : digitsVal (natToDec n) = n :=
  (natDecAux_spec (n + 1) n (Nat.lt_succ_self n)).2.2

theorem parseNatDigits_natToDec (n : ℕ) :
    parseNatDigits (natToDec n) = some n := by
  simp [parseNatDigits, natToDec_ne_nil, natToDec_all_digits, digitsVal_natToDec]

theorem trimChars_natToDec (n : ℕ) : trimChars (natToDec n) = natToDec n := by
  refine trimChars_eq_self _ (fun c hc => ?_)
  have := natToDec_all_digits n
  rw [List.all_eq_true] at this
  exact not_ws_of_digit c (this c hc)

theorem digit_ne_sign (c : Char) (h : isDigitChar c = true) : c ≠ '-' ∧ c ≠ '+' := by
  constructor <;> rintro rfl <;> simp [isDigitChar] at h

/-- JS `BigInt(n).toString()` round-trips with `BigInt(string)` on canonical
decimal strings. -/
theorem jsBigIntOfString_intToDec (n : ℤ) : jsBigIntOfString (intToDec n) = some n := by
  by_cases hneg : n < 0
  · have hrepr : intToDec n = ⟨'-' :: natToDec n.natAbs⟩ := by simp [intToDec, hneg]
    rw [hrepr]
    have key : trimChars (String.data ⟨'-' :: natToDec n.natAbs⟩) =
        '-' :: natToDec n.natAbs := by
      refine trimChars_eq_self _ (fun c hc => ?_)
      rcases List.mem_cons.mp hc with rfl | hc'
      · rfl
      · have hall := natToDec_all_digits n.natAbs
        rw [List.all_eq_true] at hall
        exact not_ws_of_digit c (hall c hc')
    simp only [jsBigIntOfString, key, if_pos rfl, if_true, parseNatDigits_natToDec,
      Option.map_some']
    congr 1
    omega
  · obtain ⟨c, rest, hcr⟩ := List.exists_cons_of_ne_nil (natToDec_ne_nil n.natAbs)
    have hrepr : intToDec n = ⟨natToDec n.natAbs⟩ := by simp [intToDec, hneg]
    rw [hrepr]
    have hdigc : isDigitChar c = true := by
      have hall := natToDec_all_digits n.natAbs
      rw [List.all_eq_true] at hall
      exact hall c (hcr ▸ List.mem_cons_self c rest)
    obtain ⟨hm, hp⟩ := digit_ne_sign c hdigc
    have key : trimChars (String.data ⟨natToDec n.natAbs⟩) = c :: rest := by
      show trimChars (natToDec n.natAbs) = c :: rest
      rw [trimChars_natToDec n.natAbs, hcr]
    simp only [jsBigIntOfString, key]
    rw [if_neg hm, if_neg hp, ← hcr, parseNatDigits_natToDec, Option.map_some']
    congr 1
    omega

/-- Leading decimal-digit run of a character list, as a number (`none` if empty). -/
def parseLeading (l : List Char) : Option ℕ :=
  match l.takeWhile isDigitChar with
  | [] => none
  | ds => some (digitsVal ds)

/-- JS `Number.parseInt(s)` (radix 10): skip leading whitespace, optional sign,
take leading digits, NaN (`none`) if there are none. The hex auto-detection of
`parseInt`, irrelevant to decimal arguments, is not modelled. -/
def jsParseInt (s : String) : Option ℤ :=
  match s.data.dropWhile isWsChar with
  | [] => none
  | c :: rest =>
    if c = '-' then (parseLeading rest).map (fun (m : ℕ) => (-(m : ℤ) : ℤ))
    else if c = '+' then (parseLeading rest).map (fun (m : ℕ) => ((m : ℤ) : ℤ))
    else (parseLeading (c :: rest)).map (fun (m : ℕ) => ((m : ℤ) : ℤ))

/-- Mantissa of a JS float literal: digits, optionally a dot and more digits;
returns the value and the unconsumed rest. -/
def parseMantissa (l : List Char) : Option (ℚ × List Char) :=
  match l.dropWhile isDigitChar with
  | '.' :: r2 =>
    if l.takeWhile isDigitChar = [] ∧ r2.takeWhile isDigitChar = [] then none
    else if r2.takeWhile isDigitChar = [] then
      some (((digitsVal (l.takeWhile isDigitChar) : ℕ) : ℚ), r2)
    else
      some (((digitsVal (l.takeWhile isDigitChar) : ℕ) : ℚ)
          + ((digitsVal (r2.takeWhile isDigitChar) : ℕ) : ℚ)
            / ((10 : ℚ) ^ (r2.takeWhile isDigitChar).length),
        r2.dropWhile isDigitChar)
  | r1 => if l.takeWhile isDigitChar = [] then none else
      some (((digitsVal (l.takeWhile isDigitChar) : ℕ) : ℚ), r1)

/-- Optional exponent part following a parsed mantissa (`e`/`E`, sign, digits);
without a well-formed exponent the mantissa stands alone. -/
def applyExp (m : ℚ) (rest : List Char) : ℚ :=
  match rest with
  | 'e' :: r | 'E' :: r =>
    (match r with
     | '-' :: rr =>
       (match rr.takeWhile isDigitChar with
        | [] => m
        | ds => m / (10 : ℚ) ^ digitsVal ds)
     | '+' :: rr =>
       (match rr.takeWhile isDigitChar with
        | [] => m
        | ds => m * (10 : ℚ) ^ digitsVal ds)
     | rr =>
       (match rr.takeWhile isDigitChar with
        | [] => m
        | ds => m * (10 : ℚ) ^ digitsVal ds))
  | _ => m

/-- JS `Number.parseFloat(s)`: skip leading whitespace, optional sign, decimal
mantissa, optional exponent; NaN (`none`) with no leading numeric literal.
(The `Infinity` keyword, never produced by the adapter's callers, is omitted.) -/
def jsParseFloat (s : String) : Option ℚ :=
  match s.data.dropWhile isWsChar with
  | [] => none
  | c :: rest =>
    if c = '-' then (parseMantissa rest).map (fun p => -(applyExp p.1 p.2))
    else if c = '+' then (parseMantissa rest).map (fun p => applyExp p.1 p.2)
    else (parseMantissa (c :: rest)).map (fun p => applyExp p.1 p.2)

theorem takeWhile_eq_self_of_all (p : Char → Bool) (l : List Char)
    (h : ∀ c ∈ l, p c = true) : l.takeWhile p = l := by
  induction l with
  | nil => rfl
  | cons a as ih =>
    simp [List.takeWhile, h a (List.mem_cons_self a as),
      ih (fun c hc => h c (List.mem_cons_of_mem a hc))]

theorem dropWhile_nil_of_all (p : Char → Bool) (l : List Char)
    (h : ∀ c ∈ l, p c = true) : l.dropWhile p = [] := by
  induction l with
  | nil => rfl
  | cons a as ih =>
    simp [List.dropWhile, h a (List.mem_cons_self a as),
      ih (fun c hc => h c (List.mem_cons_of_mem a hc))]

theorem natToDec_mem_digit (n : ℕ) : ∀ c ∈ natToDec n, isDigitChar c = true := by
  have hall := natToDec_all_digits n
  rw [List.all_eq_true] at hall
  exact hall

theorem parseLeading_natToDec (n : ℕ) : parseLeading (natToDec n) = some n := by
  unfold parseLeading
  rw [takeWhile_eq_self_of_all _ _ (natToDec_mem_digit n)]
  obtain ⟨c, rest, hcr⟩ := List.exists_cons_of_ne_nil (natToDec_ne_nil n)
  rw [hcr]
  show some (digitsVal (c :: rest)) = some n
  rw [← hcr, digitsVal_natToDec]

theorem parseMantissa_natToDec (m : ℕ) :
    parseMantissa (natToDec m) = some (((m : ℕ) : ℚ), ([] : List Char)) := by
  unfold parseMantissa
  rw [dropWhile_nil_of_all _ _ (natToDec_mem_digit m),
      takeWhile_eq_self_of_all _ _ (natToDec_mem_digit m)]
  simp [natToDec_ne_nil m, digitsVal_natToDec m]

theorem applyExp_nil (m : ℚ) : applyExp m [] = m := rfl

theorem jsParseInt_intToDec (n : ℤ) : jsParseInt (intToDec n) = some n := by
  by_cases hneg : n < 0
  · have hrepr : intToDec n = ⟨'-' :: natToDec n.natAbs⟩ := by simp [intToDec, hneg]
    rw [hrepr]
    have key : (String.data ⟨'-' :: natToDec n.natAbs⟩).dropWhile isWsChar =
        '-' :: natToDec n.natAbs := by
      refine dropWhile_eq_self_of_all _ _ (fun c hc => ?_)
      rcases List.mem_cons.mp hc with rfl | hc'
      · rfl
      · exact not_ws_of_digit c (natToDec_mem_digit n.natAbs c hc')
    simp only [jsParseInt, key, if_pos rfl, if_true, parseLeading_natToDec,
      Option.map_some']
    congr 1
    omega
  · obtain ⟨c, rest, hcr⟩ := List.exists_cons_of_ne_nil (natToDec_ne_nil n.natAbs)
    have hrepr : intToDec n = ⟨natToDec n.natAbs⟩ := by simp [intToDec, hneg]
    rw [hrepr]
    have hdigc : isDigitChar c = true :=
      natToDec_mem_digit n.natAbs c (hcr ▸ List.mem_cons_self c rest)
    obtain ⟨hm, hp⟩ := digit_ne_sign c hdigc
    have key : (String.data ⟨natToDec n.natAbs⟩).dropWhile isWsChar = c :: rest := by
      show (natToDec n.natAbs).dropWhile isWsChar = c :: rest
      rw [dropWhile_eq_self_of_all _ _
        (fun d hd => not_ws_of_digit d (natToDec_mem_digit n.natAbs d hd)), hcr]
    simp only [jsParseInt, key]
    rw [if_neg hm, if_neg hp, ← hcr, parseLeading_natToDec, Option.map_some']
    congr 1
    omega

theorem jsParseFloat_intToDec (n : ℤ) : jsParseFloat (intToDec n) = some ((n : ℤ) : ℚ) := by
  by_cases hneg : n < 0
  · have hrepr : intToDec n = ⟨'-' :: natToDec n.natAbs⟩ := by simp [intToDec, hneg]
    rw [hrepr]
    have key : (String.data ⟨'-' :: natToDec n.natAbs⟩).dropWhile isWsChar =
        '-' :: natToDec n.natAbs := by
      refine dropWhile_eq_self_of_all _ _ (fun c hc => ?_)
      rcases List.mem_cons.mp hc with rfl | hc'
      · rfl
      · exact not_ws_of_digit c (natToDec_mem_digit n.natAbs c hc')
    simp only [jsParseFloat, key, if_pos rfl, if_true, parseMantissa_natToDec,
      Option.map_some', applyExp_nil]
    congr 1
    rw [Int.cast_natAbs, abs_of_neg hneg]
    push_cast
    ring
  · obtain ⟨c, rest, hcr⟩ := List.exists_cons_of_ne_nil (natToDec_ne_nil n.natAbs)
    have hrepr : intToDec n = ⟨natToDec n.natAbs⟩ := by simp [intToDec, hneg]
    rw [hrepr]
    have hdigc : isDigitChar c = true :=
      natToDec_mem_digit n.natAbs c (hcr ▸ List.mem_cons_self c rest)
    obtain ⟨hm, hp⟩ := digit_ne_sign c hdigc
    have key : (String.data ⟨natToDec n.natAbs⟩).dropWhile isWsChar = c :: rest := by
      show (natToDec n.natAbs).dropWhile isWsChar = c :: rest
      rw [dropWhile_eq_self_of_all _ _
        (fun d hd => not_ws_of_digit d (natToDec_mem_digit n.natAbs d hd)), hcr]
    simp only [jsParseFloat, key]
    rw [if_neg hm, if_neg hp, ← hcr, parseMantissa_natToDec, Option.map_some']
    simp only [applyExp_nil]
    congr 1
    rw [Int.cast_natAbs, abs_of_nonneg (not_lt.mp hneg)]

/-- JS `Math.trunc` (and `ToInteger`) on an exact number: round toward zero. -/
def jsTrunc (q : ℚ) : ℤ := if q < 0 then ⌈q⌉ else ⌊q⌋

/-- JS `Number.isInteger` on an exact number. -/
def jsIsInteger (q : ℚ) : Bool := q.den = 1

/-- `ToUint8` as applied by `Buffer.from(arrayOfNumbers)`: truncate and wrap mod 256. -/
def toUint8 (q : ℚ) : ℕ := ((jsTrunc q).emod 256).toNat

/-- Base64 alphabet value of a character (`A`-`Z`, `a`-`z`, `0`-`9`, `+`, `/`). -/
def b64Val (c : Char) : Option ℕ :=
  if 65 ≤ c.toNat ∧ c.toNat ≤ 90 then some (c.toNat - 65)
  else if 97 ≤ c.toNat ∧ c.toNat ≤ 122 then some (c.toNat - 97 + 26)
  else if 48 ≤ c.toNat ∧ c.toNat ≤ 57 then some (c.toNat - 48 + 52)
  else if c = '+' then some 62
  else if c = '/' then some 63
  else none

/-- Pack a sequence of 6-bit values into 8-bit bytes (base64 body decoding). -/
def packSextets : List ℕ → List ℕ
  | a :: b :: c :: d :: rest =>
    (a * 4 + b / 16) :: (b % 16 * 16 + c / 4) :: (c % 4 * 64 + d) :: packSextets rest
  | [a, b] => [a * 4 + b / 16]
  | [a, b, c] => [a * 4 + b / 16, b % 16 * 16 + c / 4]
  | _ => []

/-- `Buffer.from(s, "base64")`: lenient decoding that skips characters outside
the alphabet (including padding) and never throws. -/
def jsBase64Decode (s : String) : List ℕ :=
  packSextets (s.data.filterMap b64Val)

/-- Two-digit zero-padded decimal. -/
def pad2 (n : ℕ) : List Char := if n < 10 then '0' :: natToDec n else natToDec n

/-- Three-digit zero-padded decimal. -/
def pad3 (n : ℕ) : List Char :=
  if n < 10 then '0' :: '0' :: natToDec n
  else if n < 100 then '0' :: natToDec n
  else natToDec n

/-- Four-digit zero-padded decimal. -/
def pad4 (n : ℕ) : List Char :=
  if n < 10 then '0' :: '0' :: '0' :: natToDec n
  else if n < 100 then '0' :: '0' :: natToDec n
  else if n < 1000 then '0' :: natToDec n
  else natToDec n

/-- Civil date from days since the Unix epoch (proleptic Gregorian calendar). -/
def civilFromDays (z0 : ℤ) : ℤ × ℕ × ℕ :=
  let z := z0 + 719468
  let era := z.ediv 146097
  let doe := (z - era * 146097).toNat
  let yoe := (doe - doe / 1460 + doe / 36524 - doe / 146096) / 365
  let doy := doe - (365 * yoe + yoe / 4 - yoe / 100)
  let mp := (5 * doy + 2) / 153
  let d := doy - (153 * mp + 2) / 5 + 1
  let m := if mp < 10 then mp + 3 else mp - 9
  ((era * 400 + yoe) + (if mp < 10 then 0 else 1), m, d)

/-- Days since the Unix epoch of a civil date (proleptic Gregorian calendar). -/
def daysFromCivil (y : ℤ) (m d : ℕ) : ℤ :=
  let y' := if m ≤ 2 then y - 1 else y
  let era := y'.ediv 400
  let yoe := (y' - era * 400).toNat
  let mp := if m ≤ 2 then m + 9 else m - 3
  let doy := (153 * mp + 2) / 5 + d - 1
  let doe := yoe * 365 + yoe / 4 - yoe / 100 + doy
  era * 146097 + (doe : ℤ) - 719468

/-- `Date.prototype.toISOString` body (`YYYY-MM-DDTHH:MM:SS.sssZ`); expanded-year
forms for out-of-range years, outside the scope of every claim, are approximated
by the same padded layout. -/
def isoOfMs (ms : ℤ) : String :=
  let days := ms.ediv 86400000
  let msod := (ms.emod 86400000).toNat
  let c := civilFromDays days
  let year := if c.1 < 0 then '-' :: pad4 c.1.natAbs else pad4 c.1.toNat
  ⟨year ++ '-' :: pad2 c.2.1 ++ '-' :: pad2 c.2.2 ++
    'T' :: pad2 (msod / 3600000) ++ ':' :: pad2 (msod % 3600000 / 60000) ++
    ':' :: pad2 (msod % 60000 / 1000) ++ '.' :: pad3 (msod % 1000) ++ ['Z']⟩

/-- The ISO string with the trailing `"Z"` replaced by `"+00:00"`, as produced by
`date.toISOString().replace("Z", "+00:00")` (the only `Z` is the final one). -/
def isoOffsetOfMs (ms : ℤ) : String :=
  ⟨(isoOfMs ms).data.dropLast ++ ('+' :: '0' :: '0' :: ':' :: '0' :: '0' :: [])⟩

/-- Read exactly two digits. -/
def take2Digits (l : List Char) : Option (ℕ × List Char) :=
  match l with
  | a :: b :: r =>
    if isDigitChar a ∧ isDigitChar b then some (digitsVal [a, b], r) else none
  | _ => none

/-- Read exactly four digits. -/
def take4Digits (l : List Char) : Option (ℕ × List Char) :=
  match l with
  | a :: b :: c :: d :: r =>
    if isDigitChar a ∧ isDigitChar b ∧ isDigitChar c ∧ isDigitChar d then
      some (digitsVal [a, b, c, d], r)
    else none
  | _ => none

/-- Time-of-day and zone tail of an ISO date-time (`HH:MM[:SS[.sss]][Z|±hh:mm]`),
in milliseconds (UTC offset applied). -/
def parseIsoTail (l : List Char) : Option ℤ :=
  match take2Digits l with
  | none => none
  | some (hh, r1) =>
    match r1 with
    | ':' :: r2 =>
      match take2Digits r2 with
      | none => none
      | some (mi, r3) =>
        let base : ℤ := hh * 3600000 + mi * 60000
        let withSec : Option (ℤ × List Char) :=
          match r3 with
          | ':' :: r4 =>
            match take2Digits r4 with
            | none => none
            | some (ss, r5) =>
              match r5 with
              | '.' :: a :: b :: c :: r6 =>
                if isDigitChar a ∧ isDigitChar b ∧ isDigitChar c then
                  some (base + ss * 1000 + digitsVal [a, b, c], r6)
                else none
              | r6 => some (base + ss * 1000, r6)
          | r4 => some (base, r4)
        match withSec with
        | none => none
        | some (t, rz) =>
          match rz with
          | [] => some t
          | ['Z'] => some t
          | '+' :: rr =>
            (match take2Digits rr with
             | some (oh, ':' :: rr2) =>
               (match take2Digits rr2 with
                | some (om, []) => some (t - (oh * 3600000 + om * 60000))
                | _ => none)
             | _ => none)
          | '-' :: rr =>
            (match take2Digits rr with
             | some (oh, ':' :: rr2) =>
               (match take2Digits rr2 with
                | some (om, []) => some (t + (oh * 3600000 + om * 60000))
                | _ => none)
             | _ => none)
          | _ => none
    | _ => none

/-- `new Date(string)` for the ISO-8601 forms the adapter's callers produce
(`YYYY-MM-DD`, optionally `THH:MM[:SS[.sss]]` and `Z`/`±hh:mm`); `none` is the
Invalid Date. The host's time zone is taken as UTC, and the remaining
implementation-defined non-ISO parses are out of this model's scope. -/
def jsParseDate (s : String) : Option ℤ :=
  match take4Digits s.data with
  | none => none
  | some (y, r1) =>
    match r1 with
    | '-' :: r2 =>
      match take2Digits r2 with
      | none => none
      | some (mo, r3) =>
        match r3 with
        | '-' :: r4 =>
          match take2Digits r4 with
          | none => none
          | some (d, r5) =>
            if mo = 0 ∨ mo > 12 ∨ d = 0 ∨ d > 31 then none
            else
              match r5 with
              | [] => some (daysFromCivil y mo d * 86400000)
              | 'T' :: r6 =>
                (parseIsoTail r6).map (fun t => daysFromCivil y mo d * 86400000 + t)
              | _ => none
        | _ => none
    | _ => none

/-- Character uppercasing as in JS `toUpperCase` (ASCII range, which covers
every declared SQL type string the resolver compares against). -/
def jsToUpper (l : List Char) : List Char := l.map Char.toUpper

/-- Remove every `(...)` group, as the regex replace `/\([^)]*\)/g` with `""`
does: from each `(` skip through the next `)`; a `(` with no `)` anywhere
after it matches nothing and the rest is kept. Fuel-indexed for structural
recursion; the fuel is the list length, which always suffices. -/
def stripParensAux : ℕ → List Char → List Char
  | 0, s => s
  | _ + 1, [] => []
  | f + 1, c :: rest =>
    if c = '(' then
      match rest.dropWhile (fun d => d != ')') with
      | [] => c :: rest
      | _ :: after => stripParensAux f after
    else c :: stripParensAux f rest

def stripParens (l : List Char) : List Char := stripParensAux l.length l

/-- The normalized base type computed by `mapDeclType` in `src/unnamed/part_003`
(lines 84-86): uppercase, trim, strip parenthesized length specifiers, trim. -/
def normalizeDeclBase (declType : String) : String :=
  ⟨trimChars (stripParens (trimChars (jsToUpper declType.data)))⟩

/-- The fixed lookup table of `mapDeclType` (`src/unnamed/part_003`,
lines 88-150), keyed by the normalized base type. -/
def declLookup (baseType : String) : Option ColumnType :=
  match baseType with
  | "" => none
  | "DECIMAL" => some .numeric
  | "FLOAT" => some .float
  | "DOUBLE" | "DOUBLE PRECISION" | "NUMERIC" | "REAL" => some .double
  | "TINYINT" | "SMALLINT" | "MEDIUMINT" | "INT" | "INTEGER" | "SERIAL" | "INT2"
  | "TINYINT UNSIGNED" | "SMALLINT UNSIGNED" | "MEDIUMINT UNSIGNED"
  | "INT UNSIGNED" | "INTEGER UNSIGNED" => some .int32
  | "BIGINT" | "UNSIGNED BIG INT" | "INT8" | "BIGINT UNSIGNED" => some .int64
  | "DATETIME" | "TIMESTAMP" => some .dateTime
  | "TIME" => some .time
  | "DATE" => some .date
  | "TEXT" | "CLOB" | "CHAR" | "CHARACTER" | "VARCHAR" | "VARYING CHARACTER"
  | "NCHAR" | "NATIVE CHARACTER" | "NVARCHAR" => some .text
  | "BLOB" => some .bytes
  | "BOOLEAN" => some .boolean
  | "JSON" | "JSONB" => some .json
  | _ => none

/-- `mapDeclType` (`src/unnamed/part_003`, lines 83-151): fixed lookup from the
normalized declared SQLite column type to the wire-level `ColumnType`. -/
def mapDeclType (declType : String) : Option ColumnType :=
  declLookup (normalizeDeclBase declType)

/-- `inferColumnType` (`src/unnamed/part_003`, lines 156-174): infer a column
type from a runtime value when no declared type is available. The `object`
branch distinguishes binary buffers (`Bytes`) from all other objects (`Text`);
`typeof null` is `"object"` and `null` is not a buffer. -/
def inferColumnType (value : JSVal) : ColumnType :=
  match value with
  | .str _ => .text
  | .bigint _ => .int64
  | .bool _ => .boolean
  | .num _ => .unknownNumber
  | .nan => .unknownNumber
  | .bytes _ => .bytes
  | .arr _ => .text
  | .date _ => .text
  | .null => .text

/-- First non-null value of column `i` across the sample rows (second pass of
`getColumnTypes`); a position past a row's width is treated as null. -/
def firstNonNullAt (rows : List (List JSVal)) (i : ℕ) : Option JSVal :=
  match rows with
  | [] => none
  | r :: rs =>
    match r.getD i JSVal.null with
    | .null => firstNonNullAt rs i
    | v => some v

/-- Resolution of a single column: declared type through `mapDeclType` when
present and truthy, else inference from the first non-null sample, else the
documented `Int32` default. -/
def resolveColumn (decl : Option String) (rows : List (List JSVal)) (i : ℕ) :
    ColumnType :=
  let mapped := match decl with
    | some d => if d = "" then none else mapDeclType d
    | none => none
  match mapped with
  | some t => t
  | none =>
    match firstNonNullAt rows i with
    | some v => inferColumnType v
    | none => .int32

/-- `getColumnTypes` (`src/unnamed/part_003`, lines 179-207), column by column. -/
def getColumnTypes (declaredTypes : List (Option String)) (rows : List (List JSVal)) :
    List ColumnType :=
  (List.range declaredTypes.length).map
    (fun i => resolveColumn (declaredTypes.getD i none) rows i)

/-- `mapArg` (`src/unnamed/part_003`, lines 276-323): convert one Prisma
argument to the engine format. `Except.error ()` marks a thrown JS exception
(`BigInt` syntax error on a malformed string, `toISOString` on an Invalid
Date); every other branch is total. -/
def mapArg (arg : JSVal) (argType : ArgTy) (options : Option AdapterOptions) :
    Except Unit JSVal :=
  match arg with
  | .null => .ok .null
  | .bool b => .ok (.num (if b then 1 else 0))
  | _ =>
    match argType.scalarType with
    | .int =>
      .ok (match arg with
        | .str s =>
          (match jsParseInt s with
           | some n => .num ((n : ℤ) : ℚ)
           | none => .nan)
        | _ => arg)
    | .float | .decimal =>
      .ok (match arg with
        | .str s =>
          (match jsParseFloat s with
           | some q => .num q
           | none => .nan)
        | _ => arg)
    | .bigint =>
      (match arg with
       | .str s =>
         (match jsBigIntOfString s with
          | some n => .ok (.bigint n)
          | none => .error ())
       | _ => .ok arg)
    | .datetime =>
      (match (match arg with | .str s => JSVal.date (jsParseDate s) | v => v) with
       | .date msOpt =>
         (match (options.bind (fun o => o.timestampFormat)).getD .iso8601 with
          | .unixepochMs =>
            .ok (match msOpt with | some ms => .num ((ms : ℤ) : ℚ) | none => .nan)
          | .iso8601 =>
            (match msOpt with
             | some ms => .ok (.str (isoOffsetOfMs ms))
             | none => .error ()))
       | v => .ok v)
    | .bytes =>
      .ok (match arg with
        | .str s => .bytes (jsBase64Decode s)
        | .arr xs => .bytes (xs.map toUint8)
        | _ => arg)
    | _ => .ok arg

/-- One cell of `mapRow` (`src/unnamed/part_003`, lines 212-270), with the
column's resolved type (`none` when the row is wider than the type array).
The base64 `try` in the source cannot fail (`Buffer.from` is lenient), and
`new Date(x).toISOString()` is rendered through truncation of the time value. -/
def mapCell (value : JSVal) (ct : Option ColumnType) : JSVal :=
  match value, ct with
  | .bytes bs, _ => .arr (bs.map (fun b => ((b : ℕ) : ℚ)))
  | .str s, some .bytes => .arr ((jsBase64Decode s).map (fun b => ((b : ℕ) : ℚ)))
  | .num q, some .int32 => if jsIsInteger q then .num q else .num ((jsTrunc q : ℤ) : ℚ)
  | .num q, some .int64 => if jsIsInteger q then .num q else .num ((jsTrunc q : ℤ) : ℚ)
  | .num q, some .dateTime => .str (isoOfMs (jsTrunc q))
  | .bigint n, some .dateTime => .str (isoOfMs n)
  | .bigint n, _ => .str (intToDec n)
  | v, _ => v

/-- `mapRow` (`src/unnamed/part_003`, lines 212-270): map each value of a raw
result row positionally against the resolved column types. -/
def mapRow (row : List JSVal) (columnTypes : List ColumnType) : List JSVal :=
  match row, columnTypes with
  | [], _ => []
  | v :: vs, [] => mapCell v none :: mapRow vs []
  | v :: vs, ct :: cts => mapCell v (some ct) :: mapRow vs cts

/-- C4: for every decimal string denoting an integer beyond safe native-number
precision (absolute value above `2^53 - 1`), encoding it as a BigInt argument
(`mapArg` with declared scalar type `bigint`) and decoding the stored
big-integer through `mapRow` in an `Int64` column yields exactly the original
decimal string, as a string and never as a native number. -/
theorem C4_bigint_string_roundtrip (n : ℤ) (h : (2 ^ 53 - 1 : ℤ) < |n|) :
    mapArg (.str (intToDec n)) ⟨.bigint⟩ none = .ok (.bigint n) ∧
    mapRow [.bigint n] [.int64] = [.str (intToDec n)] := by
  refine ⟨?_, rfl⟩
  show (match jsBigIntOfString (intToDec n) with
    | some m => Except.ok (JSVal.bigint m)
    | none => Except.error ()) = Except.ok (JSVal.bigint n)
  rw [jsBigIntOfString_intToDec]

/-- Witness for C4 at `n = 2^53 + 1 = 9007199254740993`. -/
theorem C4_bigint_string_roundtrip_witness :
    (2 ^ 53 - 1 : ℤ) < |(9007199254740993 : ℤ)| ∧
    (mapArg (.str (intToDec 9007199254740993)) ⟨.bigint⟩ none =
        .ok (.bigint 9007199254740993) ∧
      mapRow [.bigint 9007199254740993] [.int64] =
        [.str (intToDec 9007199254740993)]) :=
  ⟨by decide, C4_bigint_string_roundtrip 9007199254740993 (by decide)⟩

/-- The fast-path test of `queryRaw`/`executeRaw` (`src/unnamed/part_003`,
lines 480-486 and 560-566): mapping runs only when some argument's declared
scalar type is `datetime`, `bytes` or `boolean`. -/
def needsMapping (argTypes : List (Option ArgTy)) : Bool :=
  argTypes.any (fun t =>
    match t with
    | some ty =>
      (ty.scalarType == .datetime) || (ty.scalarType == .bytes) ||
        (ty.scalarType == .boolean)
    | none => false)

/-- `query.args.map((arg, i) => argTypes[i] ? mapArg(arg, argTypes[i], opts) : arg)`:
positional mapping of the argument list, with JS exceptions propagated. -/
def mapArgsList (options : Option AdapterOptions) :
    List JSVal → List (Option ArgTy) → Except Unit (List JSVal)
  | [], _ => .ok []
  | a :: as, [] => (mapArgsList options as []).map (fun l => a :: l)
  | a :: as, none :: ts => (mapArgsList options as ts).map (fun l => a :: l)
  | a :: as, some t :: ts =>
    match mapArg a t options with
    | .error e => .error e
    | .ok b => (mapArgsList options as ts).map (fun l => b :: l)

/-- The argument pipeline shared by `queryRaw` (`src/unnamed/part_003`, lines
479-494) and `executeRaw` (lines 559-574): when no argument type needs
mapping, the arguments are bound to the engine entirely unmapped. -/
def mapQueryArgs (args : List JSVal) (argTypes : List (Option ArgTy))
    (options : Option AdapterOptions) : Except Unit (List JSVal) :=
  if needsMapping argTypes then mapArgsList options args argTypes else .ok args

theorem mapArg_int_str (s : String) (options : Option AdapterOptions) :
    mapArg (.str s) ⟨.int⟩ options =
      .ok (match jsParseInt s with
        | some m => .num ((m : ℤ) : ℚ)
        | none => .nan) := rfl

theorem mapArg_float_str (s : String) (options : Option AdapterOptions) :
    mapArg (.str s) ⟨.float⟩ options =
      .ok (match jsParseFloat s with
        | some q => .num q
        | none => .nan) := rfl

theorem mapArg_decimal_str (s : String) (options : Option AdapterOptions) :
    mapArg (.str s) ⟨.decimal⟩ options =
      .ok (match jsParseFloat s with
        | some q => .num q
        | none => .nan) := rfl

theorem mapArg_bigint_str (s : String) (options : Option AdapterOptions) :
    mapArg (.str s) ⟨.bigint⟩ options =
      (match jsBigIntOfString s with
        | some m => .ok (.bigint m)
        | none => .error ()) := rfl

theorem mapArgsList_get (options : Option AdapterOptions) :
    ∀ (args : List JSVal) (argTypes : List (Option ArgTy)) (i : ℕ)
      (res : List JSVal),
      mapArgsList options args argTypes = .ok res →
      ∀ t, argTypes.getD i none = some t →
      ∀ v, args.get? i = some v →
      ∃ w, mapArg v t options = .ok w ∧ res.get? i = some w := by
  intro args
  induction args with
  | nil =>
    intro argTypes i res _ t _ v hv
    simp [List.get?] at hv
  | cons a as ih =>
    intro argTypes i res hr t ht v hv
    cases argTypes with
    | nil => simp [List.getD] at ht
    | cons t0 ts =>
      cases i with
      | zero =>
        rw [List.getD_cons_zero] at ht
        subst ht
        rw [List.get?_cons_zero] at hv
        injection hv with hv
        subst hv
        rw [mapArgsList] at hr
        cases hma : mapArg a t options with
        | error e => rw [hma] at hr; exact absurd hr (by simp)
        | ok b =>
          rw [hma] at hr
          cases hrec : mapArgsList options as ts with
          | error e => rw [hrec] at hr; exact absurd hr (by simp [Except.map])
          | ok res' =>
            rw [hrec] at hr
            simp only [Except.map] at hr
            obtain rfl := (Except.ok.injEq _ _).mp hr
            exact ⟨b, rfl, by rw [List.get?_cons_zero]⟩
      | succ j =>
        rw [List.getD_cons_succ] at ht
        rw [List.get?_cons_succ] at hv
        cases t0 with
        | none =>
          rw [mapArgsList] at hr
          cases hrec : mapArgsList options as ts with
          | error e => rw [hrec] at hr; exact absurd hr (by simp [Except.map])
          | ok res' =>
            rw [hrec] at hr
            simp only [Except.map] at hr
            obtain rfl := (Except.ok.injEq _ _).mp hr
            obtain ⟨w, hw, hres⟩ := ih ts j res' hrec t ht v hv
            exact ⟨w, hw, by rw [List.get?_cons_succ]; exact hres⟩
        | some tt =>
          rw [mapArgsList] at hr
          cases hma : mapArg a tt options with
          | error e => rw [hma] at hr; exact absurd hr (by simp)
          | ok b =>
            rw [hma] at hr
            cases hrec : mapArgsList options as ts with
            | error e => rw [hrec] at hr; exact absurd hr (by simp [Except.map])
            | ok res' =>
              rw [hrec] at hr
              simp only [Except.map] at hr
              obtain rfl := (Except.ok.injEq _ _).mp hr
              obtain ⟨w, hw, hres⟩ := ih ts j res' hrec t ht v hv
              exact ⟨w, hw, by rw [List.get?_cons_succ]; exact hres⟩

/-- C5 counterexample: a statement whose only argument is the string "123"
with declared scalar type Int. No argument type is datetime/bytes/boolean, so
the fast path skips mapping entirely and the raw string — not a parsed
integer — is bound to the engine. -/
theorem C5_counterexample_fastpath_skips_parsing :
    mapQueryArgs [.str "123"] [some ⟨.int⟩] none = .ok [.str "123"] ∧
    (JSVal.str "123" ≠ .num ((123 : ℤ) : ℚ)) ∧
    mapArg (.str "123") ⟨.int⟩ none = .ok (.num ((123 : ℤ) : ℚ)) :=
  ⟨rfl, by decide, rfl⟩

/-- C5 as amended: provided at least one argument's declared scalar type is
datetime, bytes or boolean (so the fast path does not skip mapping), every
positional string argument with declared scalar type Int is parsed to an
integer before being bound, and analogously Float/Numeric strings are parsed
to floats and BigInt strings to arbitrary-precision integers. -/
theorem C5_amended_parse_under_mapping
    (args : List JSVal) (argTypes : List (Option ArgTy))
    (options : Option AdapterOptions) (i : ℕ) (n : ℤ) (t : ArgTy)
    (res : List JSVal)
    (hm : needsMapping argTypes = true)
    (ht : argTypes.getD i none = some t)
    (ha : args.get? i = some (.str (intToDec n)))
    (hr : mapQueryArgs args argTypes options = .ok res) :
    (t.scalarType = .int → res.get? i = some (.num ((n : ℤ) : ℚ))) ∧
    ((t.scalarType = .float ∨ t.scalarType = .decimal) →
      res.get? i = some (.num ((n : ℤ) : ℚ))) ∧
    (t.scalarType = .bigint → res.get? i = some (.bigint n)) := by
  rw [mapQueryArgs, if_pos hm] at hr
  obtain ⟨w, hw, hres⟩ := mapArgsList_get options args argTypes i res hr t ht _ ha
  obtain ⟨st⟩ := t
  refine ⟨?_, ?_, ?_⟩
  · intro hst
    cases hst
    rw [mapArg_int_str, jsParseInt_intToDec] at hw
    injection hw with hw
    rw [← hw] at hres
    exact hres
  · intro hst
    have hst' : st = .float ∨ st = .decimal := hst
    rcases hst' with rfl | rfl
    · rw [mapArg_float_str, jsParseFloat_intToDec] at hw
      injection hw with hw
      rw [← hw] at hres
      exact hres
    · rw [mapArg_decimal_str, jsParseFloat_intToDec] at hw
      injection hw with hw
      rw [← hw] at hres
      exact hres
  · intro hst
    cases hst
    rw [mapArg_bigint_str, jsBigIntOfString_intToDec] at hw
    injection hw with hw
    rw [← hw] at hres
    exact hres

/-- Witness for the amended C5: a boolean argument forces the mapping pass and
the Int-typed string "7" at position 1 is parsed to the number 7. -/
theorem C5_amended_parse_under_mapping_witness :
    needsMapping [some ⟨.boolean⟩, some ⟨.int⟩] = true ∧
    mapQueryArgs [.bool true, .str (intToDec 7)]
        [some ⟨.boolean⟩, some ⟨.int⟩] none =
      .ok [.num 1, .num ((7 : ℤ) : ℚ)] ∧
    ([JSVal.num 1, .num ((7 : ℤ) : ℚ)].get? 1 = some (.num ((7 : ℤ) : ℚ))) :=
  ⟨rfl, rfl,
    (C5_amended_parse_under_mapping
      [.bool true, .str (intToDec 7)] [some ⟨.boolean⟩, some ⟨.int⟩] none
      1 7 ⟨.int⟩ [.num 1, .num ((7 : ℤ) : ℚ)]
      rfl rfl rfl rfl).1 rfl⟩

/-- C8 counterexample: the normalized declared type `FLOAT` is mapped to the
`Float` scalar type, not to `Double` as the claim states for the whole
floating/real/numeric family. -/
theorem C8_counterexample_float_maps_to_float :
    mapDeclType "FLOAT" = some ColumnType.float ∧
    some ColumnType.float ≠ some ColumnType.double := ⟨rfl, by decide⟩

/-- C8 as amended: after normalization, DOUBLE, DOUBLE PRECISION, REAL and
NUMERIC map to `Double`; the explicit DECIMAL maps to `Numeric`; and FLOAT —
the exception the claim misses — maps to `Float`. -/
theorem C8_amended_float_family_lookup (s : String) :
    ((normalizeDeclBase s = "DOUBLE" ∨ normalizeDeclBase s = "DOUBLE PRECISION" ∨
        normalizeDeclBase s = "REAL" ∨ normalizeDeclBase s = "NUMERIC") →
      mapDeclType s = some ColumnType.double) ∧
    (normalizeDeclBase s = "DECIMAL" → mapDeclType s = some ColumnType.numeric) ∧
    (normalizeDeclBase s = "FLOAT" → mapDeclType s = some ColumnType.float) := by
  refine ⟨?_, ?_, ?_⟩
  · rintro (h | h | h | h) <;> (show declLookup (normalizeDeclBase s) = _) <;>
      rw [h] <;> rfl
  · intro h
    show declLookup (normalizeDeclBase s) = _
    rw [h]
    rfl
  · intro h
    show declLookup (normalizeDeclBase s) = _
    rw [h]
    rfl

/-- Witness for the amended C8 on concrete declared types (with length
specifiers and mixed case exercising the normalization). -/
theorem C8_amended_float_family_lookup_witness :
    normalizeDeclBase " real(6) " = "REAL" ∧
    mapDeclType " real(6) " = some ColumnType.double ∧
    normalizeDeclBase "Decimal(10,2)" = "DECIMAL" ∧
    mapDeclType "Decimal(10,2)" = some ColumnType.numeric ∧
    normalizeDeclBase "float" = "FLOAT" ∧
    mapDeclType "float" = some ColumnType.float :=
  ⟨by decide,
    (C8_amended_float_family_lookup " real(6) ").1 (Or.inr (Or.inr (Or.inl (by decide)))),
    by decide,
    (C8_amended_float_family_lookup "Decimal(10,2)").2.1 (by decide),
    by decide,
    (C8_amended_float_family_lookup "float").2.2 (by decide)⟩

/-- Events against the `AsyncMutex`: `acq i` is a call to `acquire()` under
acquisition token `i`; `rel i` is an invocation of the release capability that
`acquire()` returned for acquisition `i`. Tokens label acquisitions, so they
are pairwise distinct by construction. -/
inductive MutexEv where
  | acq (i : ℕ)
  | rel (i : ℕ)
deriving DecidableEq, Repr

/-- State of `AsyncMutex` (`src/unnamed/part_003`, lines 666-696). `locked` and
`queue` are the object's fields (`queue` holds queued acquisition tokens in
arrival order). The ghost field `holders` records the acquisitions whose
promise has resolved and whose capability has not been invoked — the callers
that currently believe they hold the lock; `grants` logs the order in which
the lock was handed out. -/
structure MutexState where
  locked : Bool
  queue : List ℕ
  holders : List ℕ
  grants : List ℕ
deriving DecidableEq, Repr

def initMutex : MutexState := ⟨false, [], [], []⟩

/-- `release()` (`src/unnamed/part_003`, lines 686-695): shift the queue and
hand the lock to the next waiter if one exists, else unlock. The releaser `i`
stops holding (ghost `erase`, a no-op when `i` does not hold); nothing in the
code checks that the invoker actually holds the lock. -/
def mutexRelease (s : MutexState) (i : ℕ) : MutexState :=
  match s.queue with
  | [] => { s with locked := false, holders := s.holders.erase i }
  | w :: rest =>
    { s with
      locked := true
      queue := rest
      holders := s.holders.erase i ++ [w]
      grants := s.grants ++ [w] }

/-- `acquire()` (`src/unnamed/part_003`, lines 670-684): take the lock
immediately when free, otherwise join the back of the queue. -/
def mutexAcquire (s : MutexState) (i : ℕ) : MutexState :=
  if s.locked then { s with queue := s.queue ++ [i] }
  else { s with
    locked := true
    holders := s.holders ++ [i]
    grants := s.grants ++ [i] }

/-- Unchecked step: exactly what the JS object does, with no discipline on who
invokes a release capability (double release included). -/
def mutexStepRaw (s : MutexState) : MutexEv → MutexState
  | .acq i => mutexAcquire s i
  | .rel i => mutexRelease s i

def mutexRunRaw (s : MutexState) : List MutexEv → MutexState
  | [] => s
  | e :: tr => mutexRunRaw (mutexStepRaw s e) tr

/-- Checked step: the same transitions, additionally enforcing the capability
discipline that a release is invoked once, by the caller holding the lock. -/
def mutexStepChecked (s : MutexState) : MutexEv → Option MutexState
  | .acq i => some (mutexAcquire s i)
  | .rel i => if i ∈ s.holders then some (mutexRelease s i) else none

def mutexRunChecked (s : MutexState) : List MutexEv → Option MutexState
  | [] => some s
  | e :: tr =>
    match mutexStepChecked s e with
    | none => none
    | some s' => mutexRunChecked s' tr

/-- Acquisition tokens of a trace, in arrival order. -/
def acqIds (tr : List MutexEv) : List ℕ :=
  tr.filterMap (fun e => match e with | .acq i => some i | .rel _ => none)

/-- Mutex invariant: at most one holder; unlocked means idle; held means locked. -/
def MutexInv (s : MutexState) : Prop :=
  s.holders.length ≤ 1 ∧
  (s.locked = false → s.holders = [] ∧ s.queue = []) ∧
  (s.holders ≠ [] → s.locked = true)

theorem holders_singleton (l : List ℕ) (i : ℕ) (hm : i ∈ l) (hl : l.length ≤ 1) :
    l = [i] := by
  match l with
  | [] => cases hm
  | [x] => rw [List.mem_singleton] at hm; rw [hm]
  | x :: y :: rest => simp at hl

theorem mutexRelease_nilq (s : MutexState) (i : ℕ) (hq : s.queue = []) :
    mutexRelease s i = { s with locked := false, holders := s.holders.erase i } := by
  unfold mutexRelease
  rw [hq]

theorem mutexRelease_consq (s : MutexState) (i w : ℕ) (rest : List ℕ)
    (hq : s.queue = w :: rest) :
    mutexRelease s i = { s with
      locked := true
      queue := rest
      holders := s.holders.erase i ++ [w]
      grants := s.grants ++ [w] } := by
  unfold mutexRelease
  rw [hq]

theorem mutexRunChecked_inv (tr : List MutexEv) :
    ∀ s s', MutexInv s → mutexRunChecked s tr = some s' →
      MutexInv s' ∧ s'.grants ++ s'.queue = s.grants ++ s.queue ++ acqIds tr := by
  induction tr with
  | nil =>
    intro s s' hinv hrun
    simp only [mutexRunChecked] at hrun
    obtain rfl := (Option.some.injEq _ _).mp hrun
    simp [acqIds, hinv]
  | cons e tr ih =>
    intro s s' hinv hrun
    obtain ⟨hlen, hfree, hheld⟩ := hinv
    cases e with
    | acq i =>
      simp only [mutexRunChecked, mutexStepChecked] at hrun
      cases hl : s.locked with
      | true =>
        rw [show mutexAcquire s i = { s with queue := s.queue ++ [i] } by
          simp [mutexAcquire, hl]] at hrun
        have hinv1 : MutexInv { s with queue := s.queue ++ [i] } :=
          ⟨hlen,
           fun hc => absurd hl (by rw [show s.locked = false from hc]; simp),
           fun _ => show s.locked = true from hl⟩
        obtain ⟨hinv', heq⟩ := ih { s with queue := s.queue ++ [i] } s' hinv1 hrun
        refine ⟨hinv', ?_⟩
        rw [heq]
        simp [acqIds]
      | false =>
        obtain ⟨hh0, hq0⟩ := hfree hl
        rw [show mutexAcquire s i = { s with
            locked := true
            holders := s.holders ++ [i]
            grants := s.grants ++ [i] } by simp [mutexAcquire, hl]] at hrun
        have hinv1 : MutexInv { s with
            locked := true
            holders := s.holders ++ [i]
            grants := s.grants ++ [i] } :=
          And.intro (by simp [hh0]) (And.intro (fun hc => nomatch hc) (fun _ => rfl))
        obtain ⟨hinv', heq⟩ := ih _ s' hinv1 hrun
        refine ⟨hinv', ?_⟩
        rw [heq]
        simp [acqIds, hq0, hh0]
    | rel i =>
      simp only [mutexRunChecked, mutexStepChecked] at hrun
      by_cases hm : i ∈ s.holders
      · rw [if_pos hm] at hrun
        have hhi : s.holders = [i] := holders_singleton _ _ hm hlen
        have herase : s.holders.erase i = [] := by rw [hhi]; simp
        cases hq : s.queue with
        | nil =>
          rw [mutexRelease_nilq s i hq, herase] at hrun
          have hinv1 : MutexInv { s with locked := false, holders := [] } :=
            ⟨by simp, fun _ => ⟨rfl, show s.queue = [] from hq⟩,
             fun hc => absurd rfl hc⟩
          obtain ⟨hinv', heq⟩ := ih _ s' hinv1 hrun
          refine ⟨hinv', ?_⟩
          rw [heq]
          simp [acqIds, hq]
        | cons w rest =>
          rw [mutexRelease_consq s i w rest hq, herase] at hrun
          have hinv1 : MutexInv { s with
              locked := true
              queue := rest
              holders := [] ++ [w]
              grants := s.grants ++ [w] } :=
            And.intro (by simp) (And.intro (fun hc => nomatch hc) (fun _ => rfl))
          obtain ⟨hinv', heq⟩ := ih _ s' hinv1 hrun
          refine ⟨hinv', ?_⟩
          rw [heq]
          simp [acqIds, hq]
      · rw [if_neg hm] at hrun
        cases hrun

/-- C2: across every interleaving of acquire and release steps that respects
the release-capability discipline, the AsyncMutex keeps at most one holder at
a time, and the lock is handed out in exact arrival order: the grant log
followed by the still-queued waiters always equals the arrivals in order, and
every release hands the lock to the earliest-arrived waiter still queued. -/
theorem C2_mutex_exclusion_and_fifo (tr : List MutexEv) (s' : MutexState)
    (h : mutexRunChecked initMutex tr = some s') :
    s'.holders.length ≤ 1 ∧
    s'.grants ++ s'.queue = acqIds tr ∧
    (∀ i w rest, s'.queue = w :: rest →
      (mutexRelease s' i).grants = s'.grants ++ [w]) := by
  obtain ⟨⟨hlen, _, _⟩, heq⟩ :=
    mutexRunChecked_inv tr initMutex s' ⟨by simp [initMutex], by simp [initMutex],
      by simp [initMutex]⟩ h
  refine ⟨hlen, by simpa [initMutex] using heq, ?_⟩
  intro i w rest hq
  rw [mutexRelease_consq s' i w rest hq]

/-- Witness for C2: four acquirers, three of which arrive while the lock is
held; the three releases hand the lock over in arrival order 1, 2, 3. -/
theorem C2_mutex_exclusion_and_fifo_witness :
    mutexRunChecked initMutex
        [.acq 0, .acq 1, .acq 2, .acq 3, .rel 0, .rel 1, .rel 2] =
      some ⟨true, [], [3], [0, 1, 2, 3]⟩ ∧
    ((⟨true, [], [3], [0, 1, 2, 3]⟩ : MutexState).holders.length ≤ 1 ∧
      (⟨true, [], [3], [0, 1, 2, 3]⟩ : MutexState).grants ++
          (⟨true, [], [3], [0, 1, 2, 3]⟩ : MutexState).queue =
        acqIds [.acq 0, .acq 1, .acq 2, .acq 3, .rel 0, .rel 1, .rel 2] ∧
      (∀ i w rest,
        (⟨true, [], [3], [0, 1, 2, 3]⟩ : MutexState).queue = w :: rest →
        (mutexRelease ⟨true, [], [3], [0, 1, 2, 3]⟩ i).grants =
          (⟨true, [], [3], [0, 1, 2, 3]⟩ : MutexState).grants ++ [w])) :=
  ⟨by decide,
    C2_mutex_exclusion_and_fifo
      [.acq 0, .acq 1, .acq 2, .acq 3, .rel 0, .rel 1, .rel 2]
      ⟨true, [], [3], [0, 1, 2, 3]⟩ (by decide)⟩

/-- C3: the release capability is not guarded against double invocation. With
holder 0 and queued waiters 1 and 2, invoking holder 0's capability twice
grants the lock to waiter 2 while waiter 1 still holds it (two simultaneous
holders); with a single queued waiter 1, the second invocation marks the lock
free while waiter 1 holds it. This is the behaviour the claim rules out,
computed on the code's own release path. -/
theorem C3_double_release_double_advances :
    (mutexRunRaw initMutex [.acq 0, .acq 1, .acq 2, .rel 0, .rel 0]).holders
        = [1, 2] ∧
    2 ≤ (mutexRunRaw initMutex
        [.acq 0, .acq 1, .acq 2, .rel 0, .rel 0]).holders.length ∧
    (mutexRunRaw initMutex [.acq 0, .acq 1, .rel 0, .rel 0]).locked = false ∧
    (mutexRunRaw initMutex [.acq 0, .acq 1, .rel 0, .rel 0]).holders = [1] := by
  decide

/-- Observable effects of one `startTransaction` call, in program order:
mutex acquisition/release, engine statements, and transaction construction. -/
inductive TxEff where
  | acqLock
  | relLock
  | runStmt (sql : String)
  | mkTx
deriving DecidableEq, Repr

/-- Outcome of a `startTransaction` call. -/
inductive TxOutcome where
  | ok
  | errInvalidIsolationLevel (level : String)
  | errBegin
  | errConstruct
deriving DecidableEq, Repr

/-- `BunSqliteAdapter.startTransaction` of the single-file variant
(`src/unnamed/part_003`, lines 727-753), as the effect trace and outcome of
one call once the mutex grant is obtained. `beginOk` states whether the
engine's `BEGIN` succeeds, `constructOk` whether constructing the
`BunSqliteTransaction` object succeeds. On a construction failure the outer
`catch` releases the lock and rethrows — no compensating `ROLLBACK`. -/
def startTransaction_v3 (isolationLevel : Option String)
    (beginOk constructOk : Bool) : List TxEff × TxOutcome :=
  match isolationLevel with
  | some level =>
    if level ≠ "SERIALIZABLE" then ([], .errInvalidIsolationLevel level)
    else startTransactionBody_v3 beginOk constructOk
  | none => startTransactionBody_v3 beginOk constructOk
where
  startTransactionBody_v3 (beginOk constructOk : Bool) : List TxEff × TxOutcome :=
    if !beginOk then ([.acqLock, .runStmt "BEGIN", .relLock], .errBegin)
    else if !constructOk then
      ([.acqLock, .runStmt "BEGIN", .relLock], .errConstruct)
    else ([.acqLock, .runStmt "BEGIN", .mkTx], .ok)

/-- `BunSqliteAdapter.startTransaction` of the modular variant
(`src/unnamed/part_002`, lines 49-88): identical except that a construction
failure after a successful `BEGIN` first issues the compensating `ROLLBACK`
(inner `try`/`catch`), then releases the lock and rethrows. -/
def startTransaction_v2 (isolationLevel : Option String)
    (beginOk constructOk : Bool) : List TxEff × TxOutcome :=
  match isolationLevel with
  | some level =>
    if level ≠ "SERIALIZABLE" then ([], .errInvalidIsolationLevel level)
    else startTransactionBody_v2 beginOk constructOk
  | none => startTransactionBody_v2 beginOk constructOk
where
  startTransactionBody_v2 (beginOk constructOk : Bool) : List TxEff × TxOutcome :=
    if !beginOk then ([.acqLock, .runStmt "BEGIN", .relLock], .errBegin)
    else if !constructOk then
      ([.acqLock, .runStmt "BEGIN", .runStmt "ROLLBACK", .relLock], .errConstruct)
    else ([.acqLock, .runStmt "BEGIN", .mkTx], .ok)

/-- Whether a trace of engine statements leaves an engine-level transaction
open: `BEGIN` opens it, `COMMIT`/`ROLLBACK` close it. -/
def engineTxOpen (effs : List TxEff) : Bool :=
  effs.foldl
    (fun open_ e =>
      match e with
      | .runStmt "BEGIN" => true
      | .runStmt "COMMIT" => false
      | .runStmt "ROLLBACK" => false
      | _ => open_)
    false

/-- C1: in the single-file variant's `startTransaction`, when `BEGIN` succeeds
and the `BunSqliteTransaction` construction then throws, the adapter releases
the lock and propagates the error without ever issuing a compensating
`ROLLBACK`: the engine is left with an open, abandoned transaction. The claim
requires a `ROLLBACK` on this path in every variant, which the modular variant
does perform; this path is the violation. -/
theorem C1_v3_no_compensating_rollback :
    startTransaction_v3 (some "SERIALIZABLE") true false =
      ([.acqLock, .runStmt "BEGIN", .relLock], .errConstruct) ∧
    TxEff.runStmt "ROLLBACK" ∉ (startTransaction_v3 (some "SERIALIZABLE") true false).1 ∧
    engineTxOpen (startTransaction_v3 (some "SERIALIZABLE") true false).1 = true ∧
    startTransaction_v2 (some "SERIALIZABLE") true false =
      ([.acqLock, .runStmt "BEGIN", .runStmt "ROLLBACK", .relLock], .errConstruct) ∧
    engineTxOpen (startTransaction_v2 (some "SERIALIZABLE") true false).1 = false := by
  refine ⟨rfl, ?_, rfl, rfl, rfl⟩
  decide

/-- The modular variant always compensates: whenever `BEGIN` succeeded and
construction failed, the trace shows `BEGIN`, then `ROLLBACK`, then the lock
release, and no engine transaction stays open. -/
theorem startTransaction_v2_always_compensates (lvl : Option String) :
    (startTransaction_v2 lvl true false).2 = .errConstruct →
    (startTransaction_v2 lvl true false).1 =
      [.acqLock, .runStmt "BEGIN", .runStmt "ROLLBACK", .relLock] ∧
    engineTxOpen (startTransaction_v2 lvl true false).1 = false := by
  intro hout
  cases lvl with
  | none => exact ⟨rfl, rfl⟩
  | some level =>
    by_cases hlv : level ≠ "SERIALIZABLE"
    · rw [startTransaction_v2, if_pos hlv] at hout
      cases hout
    · rw [not_not] at hlv
      subst hlv
      exact ⟨rfl, rfl⟩

/-- Witness for the v2 compensation theorem at the default isolation level. -/
theorem startTransaction_v2_always_compensates_witness :
    (startTransaction_v2 none true false).2 = .errConstruct ∧
    ((startTransaction_v2 none true false).1 =
        [.acqLock, .runStmt "BEGIN", .runStmt "ROLLBACK", .relLock] ∧
      engineTxOpen (startTransaction_v2 none true false).1 = false) :=
  ⟨rfl, startTransaction_v2_always_compensates none rfl⟩

/-- C6: for every isolation level other than SERIALIZABLE, `startTransaction`
(in both variants) fails with `InvalidIsolationLevel` carrying the requested
level, before acquiring the mutex and before issuing any engine statement:
the effect trace is empty, so mutex state and engine state are untouched. -/
theorem C6_invalid_isolation_level_rejected_early (level : String)
    (bOk cOk : Bool) (h : level ≠ "SERIALIZABLE") :
    startTransaction_v3 (some level) bOk cOk =
      ([], .errInvalidIsolationLevel level) ∧
    startTransaction_v2 (some level) bOk cOk =
      ([], .errInvalidIsolationLevel level) := by
  constructor
  · rw [startTransaction_v3, if_pos h]
  · rw [startTransaction_v2, if_pos h]

/-- Witness for C6 at the isolation level "READ COMMITTED". -/
theorem C6_invalid_isolation_level_rejected_early_witness :
    "READ COMMITTED" ≠ "SERIALIZABLE" ∧
    (startTransaction_v3 (some "READ COMMITTED") true true =
        ([], .errInvalidIsolationLevel "READ COMMITTED") ∧
      startTransaction_v2 (some "READ COMMITTED") true true =
        ([], .errInvalidIsolationLevel "READ COMMITTED")) :=
  ⟨by decide,
    C6_invalid_isolation_level_rejected_early "READ COMMITTED" true true (by decide)⟩

/-- Observable effects of one `dispose` call. -/
inductive DispEff where
  | enqueued
  | granted
  | closedDb
  | released
deriving DecidableEq, Repr

/-- `BunSqliteAdapter.dispose` of the modular variant (`src/unnamed/part_002`,
lines 94-105): after the `disposed` idempotence guard, acquire the mutex —
suspending (joining the queue) while a transaction holds it — and only in the
granted region close the connection, then release. -/
def dispose_v2 (disposed : Bool) (s : MutexState) (d : ℕ) :
    List DispEff × MutexState :=
  if disposed then ([], s)
  else if s.locked then ([.enqueued], mutexAcquire s d)
  else ([.granted, .closedDb, .released], mutexRelease (mutexAcquire s d) d)

/-- `BunSqliteAdapter.dispose` of the single-file variant
(`src/unnamed/part_003`, lines 758-760): close the connection immediately,
without ever touching the Access Serializer. -/
def dispose_v3 (s : MutexState) (d : ℕ) : List DispEff × MutexState :=
  ([.closedDb], s)

/-- The modular dispose closes the connection only when the serializer is
free; while it is held, dispose only joins the queue. -/
theorem dispose_v2_close_gated (s : MutexState) (d : ℕ) :
    (dispose_v2 false s d).1 =
      if s.locked then [.enqueued] else [.granted, .closedDb, .released] := by
  rw [dispose_v2, if_neg (by simp)]
  by_cases hl : s.locked = true
  · rw [if_pos hl, if_pos hl]
  · have hl' : s.locked = false := by simpa using hl
    rw [hl']
    rfl

/-- While a transaction `t` holds the lock and its release has not occurred,
no later sequence of checked events removes `t` as the holder: anything
(including a dispose) that awaits the serializer stays queued until `t`
releases. -/
theorem holder_persists (tr : List MutexEv) :
    ∀ s s' t, MutexInv s → s.holders = [t] →
      mutexRunChecked s tr = some s' → (MutexEv.rel t) ∉ tr →
      s'.holders = [t] := by
  induction tr with
  | nil =>
    intro s s' t _ hh hrun _
    simp only [mutexRunChecked] at hrun
    obtain rfl := (Option.some.injEq _ _).mp hrun
    exact hh
  | cons e tr ih =>
    intro s s' t hinv hh hrun hnr
    obtain ⟨hlen, hfree, hheld⟩ := hinv
    have hlock : s.locked = true := hheld (by rw [hh]; simp)
    cases e with
    | acq i =>
      simp only [mutexRunChecked, mutexStepChecked] at hrun
      rw [show mutexAcquire s i = { s with queue := s.queue ++ [i] } by
        simp [mutexAcquire, hlock]] at hrun
      refine ih { s with queue := s.queue ++ [i] } s' t
        ⟨hlen, ?_, fun _ => hlock⟩ hh hrun ?_
      · intro hc
        rw [show s.locked = false from hc] at hlock
        cases hlock
      · intro hmem
        exact hnr (List.mem_cons_of_mem _ hmem)
    | rel i =>
      simp only [mutexRunChecked, mutexStepChecked] at hrun
      by_cases hm : i ∈ s.holders
      · rw [hh, List.mem_singleton] at hm
        subst hm
        exact absurd (List.mem_cons_self _ tr) hnr
      · rw [if_neg hm] at hrun
        cases hrun

/-- C9: the single-file variant's `dispose` closes the database immediately
even while a transaction holds the Access Serializer, never acquiring it; the
modular variant instead suspends (queues) and closes only once granted. The
violating state: transaction 0 holds the lock when dispose is invoked. -/
theorem C9_v3_dispose_closes_while_transaction_open :
    (mutexRunRaw initMutex [.acq 0]).holders = [0] ∧
    (mutexRunRaw initMutex [.acq 0]).locked = true ∧
    dispose_v3 (mutexRunRaw initMutex [.acq 0]) 1 =
      ([.closedDb], mutexRunRaw initMutex [.acq 0]) ∧
    (dispose_v2 false (mutexRunRaw initMutex [.acq 0]) 1).1 = [.enqueued] := by
  decide

/-- Boolean "the first list starts the second" test. -/
def isPre : List Char → List Char → Bool
  | [], _ => true
  | _ :: _, [] => false
  | p :: ps, c :: cs => p == c && isPre ps cs

theorem isPre_iff (p : List Char) : ∀ s, isPre p s = true ↔ ∃ r, s = p ++ r := by
  induction p with
  | nil => intro s; simp [isPre]
  | cons x xs ih =>
    intro s
    cases s with
    | nil =>
      simp only [isPre]
      constructor
      · intro hc; cases hc
      · rintro ⟨r, hr⟩; cases hr
    | cons c cs =>
      simp only [isPre, Bool.and_eq_true, beq_iff_eq]
      rw [ih cs]
      constructor
      · rintro ⟨rfl, r, rfl⟩
        exact ⟨r, rfl⟩
      · rintro ⟨r, hr⟩
        rw [List.cons_append] at hr
        injection hr with h1 h2
        exact ⟨h1.symm, r, h2⟩

theorem mem_of_isPre (p s : List Char) (h : isPre p s = true) :
    ∀ x ∈ p, x ∈ s := by
  obtain ⟨r, rfl⟩ := (isPre_iff p s).mp h
  intro x hx
  exact List.mem_append_left r hx

/-- JS `String.prototype.split` on character lists (non-empty separator):
split at every non-overlapping occurrence of `sep`, left to right. Fuel-indexed
for structural recursion; `splitL` supplies sufficient fuel. -/
def splitAux (sep : List Char) : ℕ → List Char → List (List Char)
  | _, [] => [[]]
  | 0, s => [s]
  | fuel + 1, c :: rest =>
    if isPre sep (c :: rest) then
      [] :: splitAux sep fuel (List.drop sep.length (c :: rest))
    else
      match splitAux sep fuel rest with
      | [] => [[c]]
      | t :: ts => (c :: t) :: ts

def splitL (sep s : List Char) : List (List Char) := splitAux sep s.length s

theorem splitAux_ne_nil (sep : List Char) (fuel : ℕ) (s : List Char) :
    splitAux sep fuel s ≠ [] := by
  match fuel, s with
  | _, [] => simp [splitAux]
  | 0, c :: rest => simp [splitAux]
  | f + 1, c :: rest =>
    rw [splitAux]
    by_cases hp : isPre sep (c :: rest) = true
    · simp [hp]
    · simp only [hp]
      rw [if_neg (by simp [hp])]
      cases splitAux sep f rest with
      | nil => simp
      | cons t ts => simp

theorem splitAux_fuel_irrel (sep : List Char) (hsep : sep ≠ []) :
    ∀ fuel fuel' s, s.length ≤ fuel → s.length ≤ fuel' →
      splitAux sep fuel s = splitAux sep fuel' s := by
  intro fuel
  induction fuel with
  | zero =>
    intro fuel' s hf hf'
    have : s = [] := by
      cases s with
      | nil => rfl
      | cons c cs => simp at hf
    subst this
    cases fuel' <;> rfl
  | succ f ih =>
    intro fuel' s hf hf'
    cases s with
    | nil => cases fuel' <;> rfl
    | cons c rest =>
      cases fuel' with
      | zero => simp at hf'
      | succ f' =>
        rw [splitAux, splitAux]
        by_cases hp : isPre sep (c :: rest) = true
        · rw [if_pos hp, if_pos hp]
          have hcc : (c :: rest).length = rest.length + 1 := by simp
          have hsl : 1 ≤ sep.length := by
            cases sep with
            | nil => exact absurd rfl hsep
            | cons a as => simp
          have hlen : (List.drop sep.length (c :: rest)).length ≤ f := by
            rw [List.length_drop, hcc]
            simp at hf
            omega
          have hlen' : (List.drop sep.length (c :: rest)).length ≤ f' := by
            rw [List.length_drop, hcc]
            simp at hf'
            omega
          rw [ih f' _ hlen hlen']
        · rw [if_neg hp, if_neg hp]
          have hr : rest.length ≤ f := by simp at hf; omega
          have hr' : rest.length ≤ f' := by simp at hf'; omega
          rw [ih f' rest hr hr']

theorem splitL_no_occ (sep : List Char) :
    ∀ s, (∀ u v, s = u ++ v → isPre sep v = false) → splitL sep s = [s] := by
  intro s
  induction s with
  | nil => intro _; rfl
  | cons c rest ih =>
    intro hno
    show splitAux sep (rest.length + 1) (c :: rest) = [c :: rest]
    rw [splitAux, if_neg (by rw [hno [] (c :: rest) rfl]; simp)]
    have hrec : splitAux sep rest.length rest = [rest] :=
      ih (fun u v huv => hno (c :: u) v (by rw [huv, List.cons_append]))
    rw [hrec]

theorem splitL_sep_append (sep b : List Char) (hsep : sep ≠ []) :
    splitL sep (sep ++ b) = [] :: splitL sep b := by
  cases sep with
  | nil => exact absurd rfl hsep
  | cons x xs =>
    show splitAux (x :: xs) ((xs ++ b).length + 1) (x :: (xs ++ b)) = _
    rw [splitAux,
      if_pos ((isPre_iff (x :: xs) (x :: (xs ++ b))).mpr ⟨b, by simp⟩)]
    have hdrop : List.drop (x :: xs).length (x :: (xs ++ b)) = b := by
      show List.drop (xs.length + 1) (x :: (xs ++ b)) = b
      rw [List.drop_succ_cons]
      exact List.drop_left xs b
    rw [hdrop,
      splitAux_fuel_irrel (x :: xs) (by simp) _ b.length b (by simp) le_rfl]
    rfl

theorem splitL_append_first (sep : List Char) (hsep : sep ≠ []) :
    ∀ a b, (∀ u v, a = u ++ v → v ≠ [] → isPre sep (v ++ (sep ++ b)) = false) →
      splitL sep (a ++ (sep ++ b)) = a :: splitL sep b := by
  intro a
  induction a with
  | nil =>
    intro b _
    simpa using splitL_sep_append sep b hsep
  | cons c a' ih =>
    intro b hno
    have hgoal : (c :: a') ++ (sep ++ b) = c :: (a' ++ (sep ++ b)) :=
      List.cons_append c a' (sep ++ b)
    rw [hgoal]
    show splitAux sep ((a' ++ (sep ++ b)).length + 1) (c :: (a' ++ (sep ++ b))) = _
    rw [splitAux, if_neg (by
      have := hno [] (c :: a') rfl (by simp)
      rw [List.cons_append] at this
      rw [this]
      simp)]
    have hrec : splitAux sep (a' ++ (sep ++ b)).length (a' ++ (sep ++ b)) =
        a' :: splitL sep b :=
      ih b (fun u v huv hv => hno (c :: u) v (by rw [huv, List.cons_append]) hv)
    rw [hrec]

theorem first_occ_unique (ch : Char) : ∀ (xs ys xs' ys' : List Char),
    xs ++ ch :: ys = xs' ++ ch :: ys' → ch ∉ xs → ch ∉ xs' →
    xs = xs' ∧ ys = ys' := by
  intro xs
  induction xs with
  | nil =>
    intro ys xs' ys' heq _ hx'
    cases xs' with
    | nil =>
      rw [List.nil_append, List.nil_append] at heq
      injection heq with _ h2
      exact ⟨rfl, h2⟩
    | cons d ds =>
      rw [List.nil_append, List.cons_append] at heq
      injection heq with h1 _
      exact absurd (h1 ▸ List.mem_cons_self d ds) hx'
  | cons x xt ih =>
    intro ys xs' ys' heq hx hx'
    cases xs' with
    | nil =>
      rw [List.nil_append, List.cons_append] at heq
      injection heq with h1 _
      exact absurd (h1.symm ▸ List.mem_cons_self x xt) hx
    | cons d ds =>
      rw [List.cons_append, List.cons_append] at heq
      injection heq with h1 h2
      obtain ⟨hxs, hys⟩ := ih ys ds ys' h2
        (fun hm => hx (List.mem_cons_of_mem x hm))
        (fun hm => hx' (List.mem_cons_of_mem d hm))
      exact ⟨by rw [h1, hxs], hys⟩

theorem no_early_occ (sep s1 s2 : List Char) (ch : Char) (a b : List Char)
    (hdecomp : sep = s1 ++ ch :: s2) (hs1 : ch ∉ s1) (ha : ch ∉ a) :
    ∀ u v, a = u ++ v → v ≠ [] → isPre sep (v ++ (sep ++ b)) = false := by
  intro u v huv hvne
  cases hb : isPre sep (v ++ (sep ++ b)) with
  | false => rfl
  | true =>
    exfalso
    obtain ⟨r, hr⟩ := (isPre_iff _ _).mp hb
    rw [hdecomp] at hr
    have hL : v ++ ((s1 ++ ch :: s2) ++ b) = (v ++ s1) ++ ch :: (s2 ++ b) := by
      simp [List.append_assoc]
    have hR : (s1 ++ ch :: s2) ++ r = s1 ++ ch :: (s2 ++ r) := by
      simp [List.append_assoc]
    rw [hL, hR] at hr
    have hchv : ch ∉ v := fun hm => ha (by rw [huv]; exact List.mem_append_right u hm)
    have hchvs1 : ch ∉ v ++ s1 := by
      intro hm
      rcases List.mem_append.mp hm with hmm | hmm
      · exact hchv hmm
      · exact hs1 hmm
    obtain ⟨heq, _⟩ := first_occ_unique ch (v ++ s1) (s2 ++ b) s1 (s2 ++ r) hr hchvs1 hs1
    have hc := congrArg List.length heq
    rw [List.length_append] at hc
    exact hvne (List.eq_nil_of_length_eq_zero (by omega))

theorem no_occ_of_char (sep s : List Char) (ch : Char) (hch : ch ∈ sep)
    (hns : ch ∉ s) : ∀ u v, s = u ++ v → isPre sep v = false := by
  intro u v huv
  cases hb : isPre sep v with
  | false => rfl
  | true =>
    exfalso
    exact hns (by rw [huv]; exact List.mem_append_right u (mem_of_isPre sep v hb ch hch))

/-- Join token lists with a separator (the shape of the native constraint
message's column list). -/
def joinSep (sep : List Char) : List (List Char) → List Char
  | [] => []
  | [t] => t
  | t :: t2 :: rest => t ++ (sep ++ joinSep sep (t2 :: rest))

theorem splitL_joinSep (sep s1 s2 : List Char) (ch : Char)
    (hdecomp : sep = s1 ++ ch :: s2) (hs1 : ch ∉ s1) :
    ∀ toks, toks ≠ [] → (∀ t ∈ toks, ch ∉ t) →
      splitL sep (joinSep sep toks) = toks := by
  have hsepne : sep ≠ [] := by
    rw [hdecomp]
    simp
  have hchsep : ch ∈ sep := by
    rw [hdecomp]
    exact List.mem_append_right s1 (List.mem_cons_self ch s2)
  intro toks
  induction toks with
  | nil => intro hne _; exact absurd rfl hne
  | cons t rest ih =>
    intro _ hcl
    cases rest with
    | nil =>
      show splitL sep t = [t]
      exact splitL_no_occ sep t
        (no_occ_of_char sep t ch hchsep (hcl t (List.mem_cons_self t [])))
    | cons t2 rest2 =>
      show splitL sep (t ++ (sep ++ joinSep sep (t2 :: rest2))) = _
      rw [splitL_append_first sep hsepne t (joinSep sep (t2 :: rest2))
        (no_early_occ sep s1 s2 ch t (joinSep sep (t2 :: rest2)) hdecomp hs1
          (hcl t (List.mem_cons_self t (t2 :: rest2)))),
        ih (by simp) (fun x hx => hcl x (List.mem_cons_of_mem t hx))]

theorem splitL_singleton_length_ge_two (ch : Char) :
    ∀ s, ch ∈ s → 2 ≤ (splitL [ch] s).length := by
  intro s
  induction s with
  | nil => intro hm; cases hm
  | cons c rest ih =>
    intro hm
    show 2 ≤ (splitAux [ch] (rest.length + 1) (c :: rest)).length
    rw [splitAux]
    by_cases hp : isPre [ch] (c :: rest) = true
    · rw [if_pos hp]
      have hnn := splitAux_ne_nil [ch] rest.length (List.drop [ch].length (c :: rest))
      have hlen :
          1 ≤ (splitAux [ch] rest.length (List.drop [ch].length (c :: rest))).length := by
        cases hc : splitAux [ch] rest.length (List.drop [ch].length (c :: rest)) with
        | nil => exact absurd hc hnn
        | cons _ _ => simp
      show 2 ≤ ([] :: splitAux [ch] rest.length (List.drop [ch].length (c :: rest))).length
      rw [List.length_cons]
      omega
    · rw [if_neg hp]
      have hcne : c ≠ ch := by
        intro hc
        apply hp
        rw [hc]
        show (ch == ch && isPre [] rest) = true
        simp [isPre]
      have hmr : ch ∈ rest := by
        rcases List.mem_cons.mp hm with hm1 | hm2
        · exact absurd hm1.symm hcne
        · exact hm2
      have h2 := ih hmr
      show 2 ≤ (match splitAux [ch] rest.length rest with
        | [] => [[c]]
        | t :: ts => (c :: t) :: ts).length
      cases hc : splitAux [ch] rest.length rest with
      | nil => exact absurd hc (splitAux_ne_nil [ch] rest.length rest)
      | cons t ts =>
        show 2 ≤ ((c :: t) :: ts).length
        rw [show splitL [ch] rest = splitAux [ch] rest.length rest from rfl, hc] at h2
        simpa using h2

theorem splitL_last_seg (ch : Char) :
    ∀ a c, ch ∉ c → (splitL [ch] (a ++ ch :: c)).getLastD [] = c := by
  intro a
  induction a with
  | nil =>
    intro c hc
    have h1 : splitL [ch] ([] ++ ch :: c) = [] :: splitL [ch] c := by
      show splitL [ch] ([ch] ++ c) = [] :: splitL [ch] c
      exact splitL_sep_append [ch] c (by simp)
    rw [h1, splitL_no_occ [ch] c
      (no_occ_of_char [ch] c ch (List.mem_singleton_self ch) hc)]
    rfl
  | cons x a' ih =>
    intro c hc
    have hgoal : (x :: a') ++ ch :: c = x :: (a' ++ ch :: c) := List.cons_append _ _ _
    rw [hgoal]
    by_cases hx : x = ch
    · subst hx
      have h1 : splitL [x] (x :: (a' ++ x :: c)) = [] :: splitL [x] (a' ++ x :: c) := by
        show splitL [x] ([x] ++ (a' ++ x :: c)) = _
        exact splitL_sep_append [x] (a' ++ x :: c) (by simp)
      rw [h1, List.getLastD_cons]
      exact ih c hc
    · have hpf : isPre [ch] (x :: (a' ++ ch :: c)) = false := by
        show (ch == x && isPre [] (a' ++ ch :: c)) = false
        simp only [isPre, Bool.and_true]
        exact beq_eq_false_iff_ne.mpr (fun heq => hx heq.symm)
      show (splitAux [ch] ((a' ++ ch :: c).length + 1)
          (x :: (a' ++ ch :: c))).getLastD [] = c
      rw [splitAux, if_neg (by rw [hpf]; simp)]
      have hml : ch ∈ a' ++ ch :: c :=
        List.mem_append_right a' (List.mem_cons_self ch c)
      have h2 := splitL_singleton_length_ge_two ch (a' ++ ch :: c) hml
      have hrec := ih c hc
      cases hL : splitAux [ch] (a' ++ ch :: c).length (a' ++ ch :: c) with
      | nil => exact absurd hL (splitAux_ne_nil _ _ _)
      | cons t ts =>
        rw [show splitL [ch] (a' ++ ch :: c) =
          splitAux [ch] (a' ++ ch :: c).length (a' ++ ch :: c) from rfl, hL] at h2 hrec
        cases ts with
        | nil => simp at h2
        | cons u us =>
          show ((x :: t) :: u :: us).getLastD [] = c
          rw [List.getLastD_cons, List.getLastD_cons]
          rw [List.getLastD_cons, List.getLastD_cons] at hrec
          exact hrec

/-- JS `String.prototype.split` with a string separator. -/
def jsSplit (sep s : String) : List String :=
  if sep.data = [] then s.data.map (fun c => String.mk [c])
  else (splitL sep.data s.data).map String.mk

/-- `field.split(".").pop()!`: the part of a token after its last dot. -/
def lastDotSegment (field : String) : String := (jsSplit "." field).getLastD ""

/-- The constraint field-list parser of `convertDriverError`
(`src/unnamed/part_003`, lines 398-402 and 411-415):
`message.split("constraint failed: ").at(1)?.split(", ").map(f => f.split(".").pop()!)`. -/
def parseConstraintFields (message : String) : Option (List String) :=
  match (jsSplit "constraint failed: " message).get? 1 with
  | none => none
  | some tail => some ((jsSplit ", " tail).map lastDotSegment)

/-- JS `String.prototype.includes`. -/
def jsIncludes (needle s : String) : Bool :=
  needle.data = [] || (splitL needle.data s.data).length != 1

/-- A native Bun SQLite error as the classifier sees it: a possibly absent
message, a possibly absent symbolic code string, a possibly absent numeric
errno. -/
structure NativeErr where
  message : Option String
  code : Option String
  errno : Option ℤ
deriving DecidableEq, Repr

/-- `SQLITE_ERROR_MAP` (`src/unnamed/part_003`, lines 329-362): primary result
codes 1-26 plus the five extended constraint codes. -/
def sqliteErrorMap (errno : ℤ) : Option String :=
  match errno with
  | 1 => some "SQLITE_ERROR"
  | 2 => some "SQLITE_INTERNAL"
  | 3 => some "SQLITE_PERM"
  | 4 => some "SQLITE_ABORT"
  | 5 => some "SQLITE_BUSY"
  | 6 => some "SQLITE_LOCKED"
  | 7 => some "SQLITE_NOMEM"
  | 8 => some "SQLITE_READONLY"
  | 9 => some "SQLITE_INTERRUPT"
  | 10 => some "SQLITE_IOERR"
  | 11 => some "SQLITE_CORRUPT"
  | 12 => some "SQLITE_NOTFOUND"
  | 13 => some "SQLITE_FULL"
  | 14 => some "SQLITE_CANTOPEN"
  | 15 => some "SQLITE_PROTOCOL"
  | 16 => some "SQLITE_EMPTY"
  | 17 => some "SQLITE_SCHEMA"
  | 18 => some "SQLITE_TOOBIG"
  | 19 => some "SQLITE_CONSTRAINT"
  | 20 => some "SQLITE_MISMATCH"
  | 21 => some "SQLITE_MISUSE"
  | 22 => some "SQLITE_NOLFS"
  | 23 => some "SQLITE_AUTH"
  | 24 => some "SQLITE_FORMAT"
  | 25 => some "SQLITE_RANGE"
  | 26 => some "SQLITE_NOTADB"
  | 2067 => some "SQLITE_CONSTRAINT_UNIQUE"
  | 1555 => some "SQLITE_CONSTRAINT_PRIMARYKEY"
  | 787 => some "SQLITE_CONSTRAINT_NOTNULL"
  | 1811 => some "SQLITE_CONSTRAINT_FOREIGNKEY"
  | 1299 => some "SQLITE_CONSTRAINT_TRIGGER"
  | _ => none

/-- `SQLITE_ERROR_MAP[error.errno] || "SQLITE_UNKNOWN"` with an absent errno
indexing to `undefined`. -/
def errnoFallback (errno : Option ℤ) : String :=
  match errno with
  | some n => (sqliteErrorMap n).getD "SQLITE_UNKNOWN"
  | none => "SQLITE_UNKNOWN"

/-- `error.code || SQLITE_ERROR_MAP[error.errno] || "SQLITE_UNKNOWN"`
(`src/unnamed/part_003`, line 380): an empty code string is falsy. -/
def resolveCode (e : NativeErr) : String :=
  match e.code with
  | some c => if c = "" then errnoFallback e.errno else c
  | none => errnoFallback e.errno

/-- Truthiness of `error?.message`: falsy when absent or the empty string. -/
def messageFalsy (m : Option String) : Bool :=
  match m with
  | none => true
  | some s => s = ""

/-- The closed kind taxonomy produced by the classifier. -/
inductive ErrorKind where
  | socketTimeout
  | uniqueConstraintViolation
  | nullConstraintViolation
  | foreignKeyConstraintViolation
  | tableDoesNotExist
  | columnNotFound
deriving DecidableEq, Repr

/-- The classifier's result object: taxonomy kind, original code and message,
and the optional constraint / table / column details. -/
structure DriverError where
  kind : ErrorKind
  originalCode : String
  originalMessage : String
  constraintFields : Option (List String) := none
  constraintForeignKey : Bool := false
  table : Option String := none
  column : Option String := none
deriving DecidableEq, Repr

/-- The `switch (code)` dispatch of `convertDriverError`
(`src/unnamed/part_003`, lines 389-459), with the message-based fallbacks of
its `default` arm; `none` is the final "unrecognized error - rethrow". -/
def classifyByCode (code message : String) : Option DriverError :=
  if code = "SQLITE_BUSY" then
    some { kind := .socketTimeout, originalCode := code, originalMessage := message }
  else if code = "SQLITE_CONSTRAINT_UNIQUE" ∨ code = "SQLITE_CONSTRAINT_PRIMARYKEY" then
    some { kind := .uniqueConstraintViolation
           originalCode := code
           originalMessage := message
           constraintFields := parseConstraintFields message }
  else if code = "SQLITE_CONSTRAINT_NOTNULL" then
    some { kind := .nullConstraintViolation
           originalCode := code
           originalMessage := message
           constraintFields := parseConstraintFields message }
  else if code = "SQLITE_CONSTRAINT_FOREIGNKEY" ∨ code = "SQLITE_CONSTRAINT_TRIGGER" then
    some { kind := .foreignKeyConstraintViolation
           originalCode := code
           originalMessage := message
           constraintForeignKey := true }
  else if isPre "no such table".data message.data then
    some { kind := .tableDoesNotExist
           originalCode := code
           originalMessage := message
           table := (jsSplit ": " message).get? 1 }
  else if isPre "no such column".data message.data then
    some { kind := .columnNotFound
           originalCode := code
           originalMessage := message
           column := (jsSplit ": " message).get? 1 }
  else if jsIncludes "has no column named" message then
    some { kind := .columnNotFound
           originalCode := code
           originalMessage := message
           column := (jsSplit "has no column named " message).get? 1 }
  else
    none

/-- `convertDriverError` (`src/unnamed/part_003`, lines 372-460): rethrow the
original error (`Except.error`) when the message is falsy or when the error
has neither a symbolic code string nor a numeric errno; otherwise resolve the
canonical code and dispatch on it. -/
def convertDriverError (e : NativeErr) : Except NativeErr DriverError :=
  if messageFalsy e.message = true ∨ (e.code = none ∧ e.errno = none) then
    .error e
  else
    match classifyByCode (resolveCode e) (e.message.getD "") with
    | some d => .ok d
    | none => .error e

/-- String-level separator join (the shape of a composite constraint message's
column list, e.g. `"User.a, User.b"` for separator `", "`). -/
def joinSepS (sep : String) : List String → String
  | [] => ""
  | [t] => t
  | t :: t2 :: rest => t ++ sep ++ joinSepS sep (t2 :: rest)

/-- The native message shape the unique/primary-key classifier parses:
a prefix, the delimiter phrase, and comma-separated `Table.column` tokens. -/
def compositeConstraintMessage (pre : String) (toks : List (String × String)) :
    String :=
  pre ++ "constraint failed: " ++
    joinSepS ", " (toks.map (fun tc => tc.1 ++ "." ++ tc.2))

theorem joinSepS_data (sep : String) : ∀ l : List String,
    (joinSepS sep l).data = joinSep sep.data (l.map String.data) := by
  intro l
  induction l with
  | nil => rfl
  | cons t rest ih =>
    cases rest with
    | nil => rfl
    | cons t2 rest2 =>
      show (t ++ sep ++ joinSepS sep (t2 :: rest2)).data =
        t.data ++ (sep.data ++ joinSep sep.data ((t2 :: rest2).map String.data))
      show (t.data ++ sep.data) ++ (joinSepS sep (t2 :: rest2)).data = _
      rw [ih, List.append_assoc]

theorem mem_joinSep (sep : List Char) : ∀ (l : List (List Char)) (x : Char),
    x ∈ joinSep sep l → x ∈ sep ∨ ∃ t ∈ l, x ∈ t := by
  intro l
  induction l with
  | nil => intro x hx; cases hx
  | cons t rest ih =>
    cases rest with
    | nil =>
      intro x hx
      exact Or.inr ⟨t, List.mem_cons_self t [], hx⟩
    | cons t2 rest2 =>
      intro x hx
      rcases List.mem_append.mp hx with h | h
      · exact Or.inr ⟨t, List.mem_cons_self t (t2 :: rest2), h⟩
      · rcases List.mem_append.mp h with h2 | h2
        · exact Or.inl h2
        · rcases ih x h2 with h3 | ⟨t', ht', hx'⟩
          · exact Or.inl h3
          · exact Or.inr ⟨t', List.mem_cons_of_mem t ht', hx'⟩

theorem getLastD_map_mk : ∀ (L : List (List Char)) (dc : List Char),
    (L.map String.mk).getLastD (String.mk dc) = String.mk (L.getLastD dc) := by
  intro L
  induction L with
  | nil => intro dc; rfl
  | cons x rest ih =>
    intro dc
    rw [List.map_cons, List.getLastD_cons, List.getLastD_cons, ih]

theorem token_data_eq (t1 t2 : String) :
    (t1 ++ "." ++ t2).data = t1.data ++ '.' :: t2.data := by
  show (t1.data ++ ['.']) ++ t2.data = _
  rw [List.append_assoc]
  rfl

theorem lastDotSegment_token (t1 t2 : String) (h : '.' ∉ t2.data) :
    lastDotSegment (t1 ++ "." ++ t2) = t2 := by
  rw [lastDotSegment, jsSplit, if_neg (by decide), token_data_eq]
  show ((splitL ['.'] (t1.data ++ '.' :: t2.data)).map String.mk).getLastD
    (String.mk []) = t2
  rw [getLastD_map_mk, splitL_last_seg '.' t1.data t2.data h]

theorem parseConstraintFields_composite (pre : String)
    (toks : List (String × String)) (htoks : toks ≠ [])
    (hpre : ':' ∉ pre.data)
    (hclean : ∀ tc ∈ toks, ':' ∉ (Prod.fst tc).data ∧ ',' ∉ (Prod.fst tc).data ∧
      ':' ∉ (Prod.snd tc).data ∧ ',' ∉ (Prod.snd tc).data ∧
      '.' ∉ (Prod.snd tc).data) :
    parseConstraintFields (compositeConstraintMessage pre toks) =
      some (toks.map Prod.snd) := by
  have hdataMsg : (compositeConstraintMessage pre toks).data =
      pre.data ++ ("constraint failed: ".data ++
        (joinSepS ", " (toks.map (fun tc => tc.1 ++ "." ++ tc.2))).data) := by
    show (pre.data ++ "constraint failed: ".data) ++
      (joinSepS ", " (toks.map (fun tc => tc.1 ++ "." ++ tc.2))).data = _
    exact List.append_assoc _ _ _
  have hcolon_tail :
      ':' ∉ (joinSepS ", " (toks.map (fun tc => tc.1 ++ "." ++ tc.2))).data := by
    rw [joinSepS_data]
    intro hm
    rcases mem_joinSep ", ".data _ ':' hm with h | ⟨t, ht, hx⟩
    · simp at h
    · rcases List.mem_map.mp ht with ⟨ts, hts, rfl⟩
      rcases List.mem_map.mp hts with ⟨tc, htc, rfl⟩
      rw [token_data_eq] at hx
      obtain ⟨h1, _, h3, _, _⟩ := hclean tc htc
      rcases List.mem_append.mp hx with h | h
      · exact h1 h
      · rcases List.mem_cons.mp h with h | h
        · cases h
        · exact h3 h
  have hcomma_tok : ∀ t ∈ (toks.map (fun tc => tc.1 ++ "." ++ tc.2)).map
      String.data, ',' ∉ t := by
    intro t ht hm
    rcases List.mem_map.mp ht with ⟨ts, hts, rfl⟩
    rcases List.mem_map.mp hts with ⟨tc, htc, rfl⟩
    rw [token_data_eq] at hm
    obtain ⟨_, h2, _, h4, _⟩ := hclean tc htc
    rcases List.mem_append.mp hm with h | h
    · exact h2 h
    · rcases List.mem_cons.mp h with h | h
      · cases h
      · exact h4 h
  have hsplit1 : splitL "constraint failed: ".data
      (compositeConstraintMessage pre toks).data =
      pre.data :: [(joinSepS ", " (toks.map (fun tc => tc.1 ++ "." ++ tc.2))).data] := by
    rw [hdataMsg,
      splitL_append_first "constraint failed: ".data (by decide) pre.data _
        (no_early_occ "constraint failed: ".data "constraint failed".data [' ']
          ':' pre.data _ (by decide) (by decide) hpre),
      splitL_no_occ _ _ (no_occ_of_char _ _ ':' (by decide) hcolon_tail)]
  have hjs1 : jsSplit "constraint failed: " (compositeConstraintMessage pre toks) =
      [pre, joinSepS ", " (toks.map (fun tc => tc.1 ++ "." ++ tc.2))] := by
    rw [jsSplit, if_neg (by decide), hsplit1]
    rfl
  have hsplit2 : splitL ", ".data
      (joinSepS ", " (toks.map (fun tc => tc.1 ++ "." ++ tc.2))).data =
      (toks.map (fun tc => tc.1 ++ "." ++ tc.2)).map String.data := by
    rw [joinSepS_data]
    exact splitL_joinSep ", ".data [] [' '] ',' rfl (by simp) _
      (by simp [htoks]) hcomma_tok
  have hjs2 : jsSplit ", " (joinSepS ", " (toks.map (fun tc => tc.1 ++ "." ++ tc.2))) =
      toks.map (fun tc => tc.1 ++ "." ++ tc.2) := by
    rw [jsSplit, if_neg (by decide), hsplit2, List.map_map]
    have hid : (String.mk ∘ String.data) = id := funext (fun s => rfl)
    rw [hid, List.map_id]
  have hmap : (toks.map (fun tc => tc.1 ++ "." ++ tc.2)).map lastDotSegment =
      toks.map Prod.snd := by
    rw [List.map_map]
    refine List.map_congr_left (fun tc htc => ?_)
    obtain ⟨_, _, _, _, h5⟩ := hclean tc htc
    exact lastDotSegment_token tc.1 tc.2 h5
  rw [parseConstraintFields, hjs1]
  show some ((jsSplit ", "
    (joinSepS ", " (toks.map (fun tc => tc.1 ++ "." ++ tc.2)))).map lastDotSegment) =
    some (toks.map Prod.snd)
  rw [hjs2, hmap]

/-- C7: for every native error whose canonical code is the unique or
primary-key constraint code and whose message is a prefix followed by the
delimiter phrase "constraint failed: " and comma-separated dotted column
tokens, the classifier returns a UniqueConstraintViolation whose constraint
field list is exactly the last dot-segment of each token, with the original
code and message preserved. -/
theorem C7_composite_unique_violation (pre : String)
    (toks : List (String × String)) (code : String) (errno : Option ℤ)
    (hcode : code = "SQLITE_CONSTRAINT_UNIQUE" ∨
      code = "SQLITE_CONSTRAINT_PRIMARYKEY")
    (htoks : toks ≠ [])
    (hpre : ':' ∉ pre.data)
    (hclean : ∀ tc ∈ toks, ':' ∉ (Prod.fst tc).data ∧ ',' ∉ (Prod.fst tc).data ∧
      ':' ∉ (Prod.snd tc).data ∧ ',' ∉ (Prod.snd tc).data ∧
      '.' ∉ (Prod.snd tc).data) :
    convertDriverError
        ⟨some (compositeConstraintMessage pre toks), some code, errno⟩ =
      .ok { kind := .uniqueConstraintViolation
            originalCode := code
            originalMessage := compositeConstraintMessage pre toks
            constraintFields := some (toks.map Prod.snd) } := by
  have hpcf := parseConstraintFields_composite pre toks htoks hpre hclean
  have hmsgne : compositeConstraintMessage pre toks ≠ "" := by
    intro hc
    have hd : (pre.data ++ "constraint failed: ".data) ++
        (joinSepS ", " (toks.map (fun tc => tc.1 ++ "." ++ tc.2))).data =
        ([] : List Char) := congrArg String.data hc
    simp at hd
  rcases hcode with rfl | rfl
  · rw [convertDriverError, if_neg (by
      rintro (h | ⟨h, _⟩)
      · refine hmsgne ?_
        simpa [messageFalsy] using h
      · cases h)]
    have hstep : classifyByCode
        (resolveCode ⟨some (compositeConstraintMessage pre toks),
          some "SQLITE_CONSTRAINT_UNIQUE", errno⟩)
        ((some (compositeConstraintMessage pre toks)).getD "") =
        some { kind := .uniqueConstraintViolation
               originalCode := "SQLITE_CONSTRAINT_UNIQUE"
               originalMessage := compositeConstraintMessage pre toks
               constraintFields := some (toks.map Prod.snd) } := by
      show classifyByCode "SQLITE_CONSTRAINT_UNIQUE"
        (compositeConstraintMessage pre toks) = _
      rw [classifyByCode, if_neg (by decide), if_pos (Or.inl rfl), hpcf]
    rw [hstep]
  · rw [convertDriverError, if_neg (by
      rintro (h | ⟨h, _⟩)
      · refine hmsgne ?_
        simpa [messageFalsy] using h
      · cases h)]
    have hstep : classifyByCode
        (resolveCode ⟨some (compositeConstraintMessage pre toks),
          some "SQLITE_CONSTRAINT_PRIMARYKEY", errno⟩)
        ((some (compositeConstraintMessage pre toks)).getD "") =
        some { kind := .uniqueConstraintViolation
               originalCode := "SQLITE_CONSTRAINT_PRIMARYKEY"
               originalMessage := compositeConstraintMessage pre toks
               constraintFields := some (toks.map Prod.snd) } := by
      show classifyByCode "SQLITE_CONSTRAINT_PRIMARYKEY"
        (compositeConstraintMessage pre toks) = _
      rw [classifyByCode, if_neg (by decide), if_pos (Or.inr rfl), hpcf]
    rw [hstep]

/-- Witness for C7: the composite-key message
`"UNIQUE constraint failed: User.a, User.b"` yields fields `["a", "b"]`. -/
theorem C7_composite_unique_violation_witness :
    compositeConstraintMessage "UNIQUE " [("User", "a"), ("User", "b")] =
      "UNIQUE constraint failed: User.a, User.b" ∧
    convertDriverError
        ⟨some (compositeConstraintMessage "UNIQUE " [("User", "a"), ("User", "b")]),
          some "SQLITE_CONSTRAINT_UNIQUE", some 2067⟩ =
      .ok { kind := .uniqueConstraintViolation
            originalCode := "SQLITE_CONSTRAINT_UNIQUE"
            originalMessage :=
              compositeConstraintMessage "UNIQUE " [("User", "a"), ("User", "b")]
            constraintFields := some ["a", "b"] } :=
  ⟨by decide,
    C7_composite_unique_violation "UNIQUE " [("User", "a"), ("User", "b")]
      "SQLITE_CONSTRAINT_UNIQUE" (some 2067) (Or.inl rfl) (by decide) (by decide)
      (by decide)⟩

/-- C10: a native error whose message is absent or empty is re-raised
unchanged by `convertDriverError`, even when it carries a symbolic code string
or a numeric errno: classification requires a non-empty message. -/
theorem C10_falsy_message_rethrows (e : NativeErr)
    (h : e.message = none ∨ e.message = some "") :
    convertDriverError e = .error e := by
  rw [convertDriverError, if_pos (Or.inl (by rcases h with h | h <;> rw [h] <;> rfl))]

/-- Witness for C10: an error with no message but both the symbolic unique
constraint code and errno 2067 is still rethrown unchanged. -/
theorem C10_falsy_message_rethrows_witness :
    ((⟨none, some "SQLITE_CONSTRAINT_UNIQUE", some 2067⟩ : NativeErr).message = none ∨
      (⟨none, some "SQLITE_CONSTRAINT_UNIQUE", some 2067⟩ : NativeErr).message = some "") ∧
    convertDriverError ⟨none, some "SQLITE_CONSTRAINT_UNIQUE", some 2067⟩ =
      .error ⟨none, some "SQLITE_CONSTRAINT_UNIQUE", some 2067⟩ :=
  ⟨Or.inl rfl, C10_falsy_message_rethrows _ (Or.inl rfl)⟩
